import Mathlib

/-!
Verification development for the `lshca` utility (file `lshca.py`).

The development shallowly embeds two parts of the program:

* the topology assembler (`HCAManager.__init__`, `MlnxHCA`), which groups
  per-function device records into per-card adapter records, and

* the output projection engine (`Output.apply_select_output_filters`,
  `Output.apply_where_output_filters`, and the width computations of
  `Output.print_output`).

Python dictionaries are embedded as association lists, Python lists as Lean
lists, and the in-place mutations of the source are embedded as explicit
state passing.  The `raise` statements of the source are embedded with
`Except`/`Option` results.
-/

namespace Lshca

/-- Embedding of an `MlnxBFDDevice` object (class `MlnxBFDDevice`,
`lshca.py` lines 808-918), restricted to the attributes that the topology
assembler reads: `bdf`, the `sriov` property value (`"PF"`, `"PF*"` or
`"VF"` in real runs), `vfParent`, `sn`, `pn`, `fw`, `description`, `tempr`
and `port`. -/
structure BfdDev where
  bdf : String
  sriov : String
  vfParent : String
  sn : String
  pn : String
  fw : String
  description : String
  tempr : String
  port : String
deriving DecidableEq, Repr

/-- Embedding of an `MlnxHCA` object (`lshca.py` lines 921-969):
the owned device list `bfd_devices`, the attributes copied from the
founding device, and the private display index `_hca_index`
(`none` embeds the Python `None` it is initialised with). -/
structure MlnxHCA where
  bfd_devices : List BfdDev
  sn : String
  pn : String
  fw : String
  description : String
  tempr : String
  hca_index_val : Option Nat
deriving DecidableEq, Repr

/-- Embedding of the test `bdf_dev.sriov in ("PF", "PF*")` used by
`HCAManager.__init__` (line 270) and `MlnxHCA.__init__` (line 925). -/
def isPF (dev : BfdDev) : Bool :=
  dev.sriov == "PF" || dev.sriov == "PF*"

/-- Body of the `MlnxHCA` constructor (`lshca.py` lines 922-935) in the
case where its `ValueError` is not raised: the device list is seeded with
the founding device, the summary attributes are copied from it, and
`_hca_index` is still `None`. -/
def mkHCA (dev : BfdDev) : MlnxHCA :=
  { bfd_devices := [dev]
    sn := dev.sn
    pn := dev.pn
    fw := dev.fw
    description := dev.description
    tempr := dev.tempr
    hca_index_val := none }

/-- Embedding of `MlnxHCA.__init__` (`lshca.py` lines 922-935): the
constructor succeeds only on a `"PF"`/`"PF*"` device and raises
`ValueError` (embedded as `none`) otherwise. -/
def MlnxHCA.init (dev : BfdDev) : Option MlnxHCA :=
  if isPF dev then some (mkHCA dev) else none

/-- Embedding of the `hca_index` property getter (`lshca.py` lines
943-945): `"#" + str(self._hca_index)`; Python renders `None` as
`"None"`. -/
def MlnxHCA.hca_index (h : MlnxHCA) : String :=
  "#" ++ (match h.hca_index_val with
          | none => "None"
          | some n => toString n)

/-- Embedding of the loop of `MlnxHCA.add_bdf_dev` (`lshca.py` lines
953-955):

    for i, bfd_dev in enumerate(self.bfd_devices):
        if bfd_dev.bdf == new_bfd_dev.vfParent:
            self.bfd_devices.insert(i+1, new_bfd_dev)

The Python loop enumerates a list that grows under it; the state is kept
as the processed front of the list plus the remaining back, and an
insertion at `i+1` puts `new` at the head of the back.  There is no
`break`, so every element whose `bdf` matches the parent address receives
a copy of `new` directly after it.  The loop terminates in at most
`2 * length + 1` iterations whenever `new.bdf != new.vfParent` (the
inserted copies then never match); `fuel` bounds the iteration count, and
on exhaustion (reachable only in the pathological self-parent case, where
the Python loop itself never terminates) the remaining back is returned
unchanged. -/
def add_bdf_dev_loop (new : BfdDev) : Nat → List BfdDev → List BfdDev → List BfdDev
  | _, front, [] => front
  | 0, front, d :: rest => front ++ d :: rest
  | fuel + 1, front, d :: rest =>
    if d.bdf == new.vfParent then
      add_bdf_dev_loop new fuel (front ++ [d]) (new :: rest)
    else
      add_bdf_dev_loop new fuel (front ++ [d]) rest

/-- Embedding of `MlnxHCA.add_bdf_dev` (`lshca.py` lines 951-957): a VF
with a real parent address is inserted after each occurrence of its
parent, every other device is appended at the end. -/
def MlnxHCA.add_bdf_dev (hca : MlnxHCA) (new : BfdDev) : MlnxHCA :=
  if new.sriov == "VF" && !(new.vfParent == "-") then
    { hca with
        bfd_devices :=
          add_bdf_dev_loop new (2 * hca.bfd_devices.length + 1) [] hca.bfd_devices }
  else
    { hca with bfd_devices := hca.bfd_devices ++ [new] }

/-- One iteration of pass 1 of `HCAManager.__init__` (`lshca.py` lines
269-280): a `"PF"`/`"PF*"` device is appended to every existing HCA with
the same serial number (the Python loop has no `break`); if none matches,
a new `MlnxHCA` is created, given display index `len(self.mlnxHCAs) + 1`
and appended. -/
def pass1step (hcas : List MlnxHCA) (dev : BfdDev) : List MlnxHCA :=
  if isPF dev then
    if hcas.any (fun h => dev.sn == h.sn) then
      hcas.map (fun h => if dev.sn == h.sn then h.add_bdf_dev dev else h)
    else
      hcas ++ [{ mkHCA dev with hca_index_val := some (hcas.length + 1) }]
  else
    hcas

/-- Pass 1 of `HCAManager.__init__` (`lshca.py` lines 267-280): fold
`pass1step` over the device records, starting from the empty HCA list. -/
def pass1 (devs : List BfdDev) : List MlnxHCA :=
  devs.foldl pass1step []

/-- Embedding of `HCAManager.get_hca_by_sn` (`lshca.py` lines 310-314):
the first HCA whose serial number equals `sn`, if any. -/
def get_hca_by_sn (hcas : List MlnxHCA) (sn : String) : Option MlnxHCA :=
  hcas.find? (fun h => sn == h.sn)

/-- Application of `add_bdf_dev` to the HCA object returned by
`get_hca_by_sn`: in Python the returned object is mutated in place, which
updates the first list entry with that serial number. -/
def update_first_by_sn : List MlnxHCA → String → BfdDev → List MlnxHCA
  | [], _, _ => []
  | h :: rest, sn, dev =>
    if sn == h.sn then h.add_bdf_dev dev :: rest
    else h :: update_first_by_sn rest sn dev

/-- One iteration of pass 2 of `HCAManager.__init__` (`lshca.py` lines
282-300) for one device record: a `"VF"` device looks for the first
device record whose `bdf` equals its `vfParent` (the inner loop breaks at
the first match); when one is found, `get_hca_by_sn` resolves its serial
number, and the VF is added to that HCA, or an exception is raised if no
HCA carries that serial number.  When no device record carries the parent
address at all, the inner loop finds nothing and the VF is skipped
without any error. -/
def pass2step (devs : List BfdDev) (hcas : List MlnxHCA) (dev : BfdDev) :
    Except String (List MlnxHCA) :=
  if dev.sriov == "VF" then
    match devs.find? (fun p => dev.vfParent == p.bdf) with
    | none => .ok hcas
    | some parent =>
      match get_hca_by_sn hcas parent.sn with
      | some _ => .ok (update_first_by_sn hcas parent.sn dev)
      | none => .error "This device has no parent PF"
  else
    .ok hcas

/-- Pass 2 of `HCAManager.__init__` (`lshca.py` lines 282-300): process
the device records in order; a raised exception aborts the run. -/
def pass2 (devs : List BfdDev) : List BfdDev → List MlnxHCA → Except String (List MlnxHCA)
  | [], hcas => .ok hcas
  | dev :: rest, hcas =>
    match pass2step devs hcas dev with
    | .ok hcas' => pass2 devs rest hcas'
    | .error e => .error e

/-- Embedding of the whole topology assembly of `HCAManager.__init__`
(`lshca.py` lines 267-300): pass 1 over all device records, then pass 2
over all device records. -/
def assemble (devs : List BfdDev) : Except String (List MlnxHCA) :=
  pass2 devs devs (pass1 devs)

/-! Output projection engine.  A Python dictionary with string keys and
string values is embedded as an association list; the program builds its
dictionaries with pairwise distinct keys, and every embedded operation
below acts on all entries of a key, which coincides with the dictionary
operation on such lists. -/

/-- Embedding of a Python `dict` mapping field names to rendered values. -/
abbrev Dict := List (String × String)

/-- Dictionary key membership, `key in d`. -/
def dmem (d : Dict) (k : String) : Bool :=
  d.any (fun kv => kv.1 == k)

/-- Dictionary access `d[key]` (meaningful when `dmem d k = true`). -/
def dget (d : Dict) (k : String) : String :=
  ((d.find? (fun kv => kv.1 == k)).map (fun kv => kv.2)).getD ""

/-- Dictionary removal `d.pop(key, None)`: drop the entries of `key`. -/
def dict_pop (d : Dict) (k : String) : Dict :=
  d.filter (fun kv => !(kv.1 == k))

/-- Popping every key of a list from a dictionary, as done by the loop
`for key in data_keys_remove_list: ... .pop(key, None)` of
`Output.apply_select_output_filters` (`lshca.py` lines 349-353). -/
def remove_keys (d : Dict) (ks : List String) : Dict :=
  ks.foldl dict_pop d

/-- Embedding of one member of `Output.output` (`lshca.py` line 306,
built by `MlnxHCA.output_info`, lines 959-969): the adapter summary
dictionary plus the per-device dictionaries. -/
structure ReportItem where
  hca_info : Dict
  bdf_devices : List Dict
deriving DecidableEq, Repr

/-- Embedding of the `Config` object (`lshca.py` lines 23-62), restricted
to the fields the output projection engine reads or writes. -/
structure Config where
  output_view : String
  output_order : List String
  show_warnings_and_errors : Bool
  output_format : String
  output_separator_char : String
  output_fields_filter_positive : List String
  output_fields_filter_negative : List String
  where_output_filter : List String
deriving DecidableEq, Repr

/-- Embedding of `Output.apply_select_output_filters` (`lshca.py` lines
330-353) together with its effect on the configuration.  The Python
`Output` object holds `self.output_order = self.config.output_order`
(line 325), the very list object of the configuration; the negative
branch removes fields from that shared list in place, so the returned
configuration carries the decremented list, while the positive branch
only rebinds `self.output_order` and leaves the configuration untouched.
The key removal list is computed from the first report item only
(`self.output[0]`), and `self.output[0]["bdf_devices"][0]` raises
`IndexError` (embedded as `Except.error`) when the first item has no
device records.  The result carries the updated configuration, the
working field order of the `Output` object, and the filtered items.
The embedding is split into `select_branch`, `select_remove_list` and
`select_apply`, assembled by `apply_select_output_filters`. -/
def select_branch (config : Config) : Config × List String :=
  if config.output_fields_filter_positive.length > 0 then
    (config, config.output_fields_filter_positive)
  else if config.output_fields_filter_negative.length > 0 then
    let decremented :=
      config.output_fields_filter_negative.foldl List.erase config.output_order
    ({ config with output_order := decremented }, decremented)
  else
    (config, config.output_order)

/-- The `data_keys_remove_list` of `Output.apply_select_output_filters`
(`lshca.py` lines 344-347): keys of the adapter summary and first device
record of the first item, as a set, minus the working field order. -/
def select_remove_list (order : List String) (it0 : ReportItem) (d0 : Dict) :
    List String :=
  (it0.hca_info.map (fun kv => kv.1) ++ d0.map (fun kv => kv.1)).dedup.filter
    (fun k => !(order.contains k))

/-- The removal loop of `Output.apply_select_output_filters` (`lshca.py`
lines 349-353): pop the collected keys from every mapping of every item. -/
def select_apply (remove_list : List String) (items : List ReportItem) :
    List ReportItem :=
  items.map (fun h =>
    { hca_info := remove_keys h.hca_info remove_list
      bdf_devices := h.bdf_devices.map (fun d => remove_keys d remove_list) })

def apply_select_output_filters (config : Config) (items : List ReportItem) :
    Except String (Config × List String × List ReportItem) :=
  let branch := select_branch config
  match items with
  | [] => .ok (branch.1, branch.2, [])
  | it0 :: _ =>
    match it0.bdf_devices with
    | [] => .error "IndexError: list index out of range"
    | d0 :: _ =>
      .ok (branch.1, branch.2, select_apply (select_remove_list branch.2 it0 d0) items)

/-- Test `filter_key in record and not re.match(regex, record[filter_key])`
of `Output.apply_where_output_filters` (`lshca.py` lines 368-369 for the
device level and 375-377 for the adapter level): the record fails the
constraint when the field is present and its value does not match.
`rmatch pattern value` stands for the truth value of
`re.match(compiled pattern, value)`. -/
def fails_filter (rmatch : String → String → Bool) (k p : String) (d : Dict) : Bool :=
  dmem d k && !(rmatch p (dget d k))

/-- One iteration of the outer loop of `Output.apply_where_output_filters`
(`lshca.py` lines 363-381) for one `field=regex` constraint: collect the
failing device records of each item and delete them by `list.remove`
(first occurrence of an equal record); then collect every item that is
left without device records or whose adapter summary fails the
constraint, and delete those by `list.remove` as well. -/
def where_step (rmatch : String → String → Bool) (items : List ReportItem)
    (kp : String × String) : List ReportItem :=
  let step1 := items.map (fun hca =>
    let remove_bdf := hca.bdf_devices.filter (fails_filter rmatch kp.1 kp.2)
    { hca with bdf_devices := remove_bdf.foldl List.erase hca.bdf_devices })
  let remove_hca := step1.filter (fun hca =>
    hca.bdf_devices.isEmpty || fails_filter rmatch kp.1 kp.2 hca.hca_info)
  remove_hca.foldl List.erase step1

/-- Embedding of the dictionary built by
`dict(item.split("=") for item in self.config.where_output_filter)`
(`lshca.py` line 359), starting from already split pairs: a repeated
field name keeps its first position and its last regex. -/
def dict_update (d : List (String × String)) (kv : String × String) :
    List (String × String) :=
  if d.any (fun e => e.1 == kv.1) then
    d.map (fun e => if e.1 == kv.1 then (e.1, kv.2) else e)
  else
    d ++ [kv]

/-- Fold of `dict_update` over the split `field=regex` pairs, embedding
the `dict(...)` constructor of `lshca.py` line 359. -/
def dict_of_pairs (l : List (String × String)) : List (String × String) :=
  l.foldl dict_update []

/-- Embedding of `Output.apply_where_output_filters` (`lshca.py` lines
355-381) on already split `field=regex` pairs: build the constraint
dictionary, then apply `where_step` for each constraint.  Python 2 leaves
the dictionary iteration order unspecified; the embedding iterates in
first-insertion order, one admissible order (the constraints commute, so
the surviving items do not depend on the order). -/
def apply_where_output_filters (rmatch : String → String → Bool)
    (where_filter : List (String × String)) (items : List ReportItem) :
    List ReportItem :=
  (dict_of_pairs where_filter).foldl (where_step rmatch) items

/-- Model of Python `re.match(pattern, value)` for metacharacter-free
patterns: `re.match` anchors the pattern at the beginning of the string
only, so a literal pattern matches exactly when it is a leading substring
of the value. -/
def listMatchesAtStart : List Char → List Char → Bool
  | [], _ => true
  | _ :: _, [] => false
  | a :: as, b :: bs => a == b && listMatchesAtStart as bs

/-- Model of Python `re.match(pattern, value)` truthiness for
metacharacter-free patterns (see `listMatchesAtStart`). -/
def re_match (pattern value : String) : Bool :=
  listMatchesAtStart pattern.toList value.toList

/-- Full-match semantics of a metacharacter-free pattern, following the
words of the specification ("full-match semantics"): the whole value must
equal the pattern.  This definition follows the specification, not the
source, and exists to be compared with `re_match`. -/
def re_fullmatch_spec (pattern value : String) : Bool :=
  pattern == value

/-! Width computations of `Output.print_output` (`lshca.py` lines
387-416), human readable mode. -/

/-- Lookup in the `column_width` dictionary (string keys, integer
values). -/
def cwLookup (cw : List (String × Nat)) (k : String) : Option Nat :=
  ((cw.find? (fun e => e.1 == k)).map (fun e => e.2))

/-- Assignment `self.column_width[key] = width`: update the entry in
place, or append a new one. -/
def cwSet (cw : List (String × Nat)) (k : String) (w : Nat) : List (String × Nat) :=
  if cw.any (fun e => e.1 == k) then
    cw.map (fun e => if e.1 == k then (e.1, w) else e)
  else
    cw ++ [(k, w)]

/-- One key/value pair of one device record feeding the `column_width`
computation of `Output.print_output` (`lshca.py` lines 395-403): keys
outside the working field order are ignored; the candidate width is the
larger of the value length and the key length; the entry is assigned when
the key is new or when the value length exceeds the stored width. -/
def column_width_step (order : List String) (cw : List (String × Nat))
    (kv : String × String) : List (String × Nat) :=
  if order.contains kv.1 then
    let width := if kv.2.length > kv.1.length then kv.2.length else kv.1.length
    match cwLookup cw kv.1 with
    | none => cwSet cw kv.1 width
    | some w => if kv.2.length > w then cwSet cw kv.1 width else cw
  else
    cw

/-- The `column_width` dictionary after the scan of all device records of
all report items (`lshca.py` lines 393-403). -/
def column_widths (order : List String) (items : List ReportItem) :
    List (String × Nat) :=
  items.foldl (fun cw it =>
    it.bdf_devices.foldl (fun cw d => d.foldl (column_width_step order) cw) cw) []

/-- The `hca_info_line_width` computation of `Output.print_output`
(`lshca.py` lines 404-407): the running maximum, over every adapter
summary field of every item, of `len(key) + len(value) + 5`. -/
def hca_info_line_width (items : List ReportItem) : Nat :=
  items.foldl (fun w it =>
    it.hca_info.foldl (fun w kv =>
      if w < kv.1.length + kv.2.length + 5 then kv.1.length + kv.2.length + 5 else w) w) 0

/-- The `bdf_device_line_width` computation (`lshca.py` line 409):
`sum(self.column_width.values()) + len(self.column_width)*3 - 2`, an
integer that can be negative when there are no columns. -/
def bdf_device_line_width (order : List String) (items : List ReportItem) : Int :=
  ((column_widths order items).map (fun e => (e.2 : Int))).sum
    + 3 * ((column_widths order items).length : Int) - 2

/-- The `separator_len` computation (`lshca.py` lines 411-414): the
device table width when it exceeds the adapter summary width, otherwise
the adapter summary width. -/
def separator_len (order : List String) (items : List ReportItem) : Int :=
  if bdf_device_line_width order items > (hca_info_line_width items : Int) then
    bdf_device_line_width order items
  else
    (hca_info_line_width items : Int)

/-- Total number of device records over a report item list, the quantity
the monotonicity property of the specification counts. -/
def totalDevs (items : List ReportItem) : Nat :=
  (items.map (fun it => it.bdf_devices.length)).sum

/-! Derived definitions used to state the verified properties, and
concrete records used by witnesses and counterexamples. -/

/-- Ordering invariant of a device list: every `"VF"` record is preceded
(in the same list) by a record carrying its parent bus address. -/
def vf_after_parent (l : List BfdDev) : Prop :=
  ∀ pre v suf, l = pre ++ v :: suf → v.sriov = "VF" →
    ∃ u, u ∈ pre ∧ u.bdf = v.vfParent

/-- Decidable form of `vf_after_parent`, scanning the list once with the
already seen records accumulated. -/
def vf_after_parent_go (seen : List BfdDev) : List BfdDev → Bool
  | [] => true
  | d :: rest =>
    (!(d.sriov == "VF") || seen.any (fun u => u.bdf == d.vfParent))
      && vf_after_parent_go (seen ++ [d]) rest

/-- Decidable form of `vf_after_parent` on a whole list. -/
def vf_after_parentB (l : List BfdDev) : Bool :=
  vf_after_parent_go [] l

/-- Founder invariant of an adapter record: the device list starts with a
physical function carrying the serial number of the record, and that
founding record occurs nowhere else in the list. -/
def founder_ok (hca : MlnxHCA) : Prop :=
  ∃ f t, hca.bfd_devices = f :: t ∧ isPF f = true ∧ f.sn = hca.sn ∧ f ∉ t

/-- Value lengths feeding the column of field `k`: the lengths of the
values stored under key `k` by the device records, collected in the scan
order of `column_widths`. -/
def value_lengths (k : String) (items : List ReportItem) : List Nat :=
  ((items.map (fun it =>
    ((it.bdf_devices.map (fun d =>
      d.filterMap (fun kv =>
        if kv.1 == k then some kv.2.length else none))).flatten))).flatten)

/-- Widths of the individual `key: value` cells of the adapter summaries,
collected in the scan order of `hca_info_line_width`: each cell
contributes `len(key) + len(value) + 5`. -/
def info_widths (items : List ReportItem) : List Nat :=
  (items.map (fun it =>
    it.hca_info.map (fun kv => kv.1.length + kv.2.length + 5))).flatten

/-- Evolution of one `column_width` entry under one more value length, as
performed by `column_width_step` for the tracked key `k`. -/
def cw_entry_step (k : String) (o : Option Nat) (n : Nat) : Option Nat :=
  match o with
  | none => some (if n > k.length then n else k.length)
  | some w => if n > w then some (if n > k.length then n else k.length) else some w

/-- Adapter summary width as the specification words it: the maximum over
adapters of the sum of each summary field cell `key: value` (length
`len(key) + 2 + len(value)`) plus a fixed spacing of 5.  This definition
follows the specification, not the source, and exists to be compared with
`hca_info_line_width`. -/
def spec_adapter_summary_width (items : List ReportItem) : Nat :=
  (items.map (fun it =>
    (it.hca_info.map (fun kv => kv.1.length + 2 + kv.2.length)).sum + 5)).foldl
    Nat.max 0

/-- Separator width as the specification words it: the larger of the
total device table width, computed as the sum of the column widths plus
`3 * (n - 1)` separators with a fixed adjustment of `-2`, and the adapter
summary width.  This definition follows the specification, not the
source, and exists to be compared with `separator_len`. -/
def spec_separator_len (order : List String) (items : List ReportItem) : Int :=
  max (((column_widths order items).map (fun e => (e.2 : Int))).sum
        + 3 * (((column_widths order items).length : Int) - 1) - 2)
      (spec_adapter_summary_width items : Int)

/-- Test device: a physical function. -/
def pfA : BfdDev :=
  { bdf := "0000:01:00.0", sriov := "PF", vfParent := "-", sn := "SN100"
    pn := "P1", fw := "F1", description := "HCA card", tempr := "45", port := "1" }

/-- Test device: first virtual function of `pfA`. -/
def vfA1 : BfdDev :=
  { bdf := "0000:01:00.1", sriov := "VF", vfParent := "0000:01:00.0", sn := "SN100"
    pn := "P1", fw := "F1", description := "HCA vf", tempr := "45", port := "1" }

/-- Test device: second virtual function of `pfA`. -/
def vfA2 : BfdDev :=
  { bdf := "0000:01:00.2", sriov := "VF", vfParent := "0000:01:00.0", sn := "SN100"
    pn := "P1", fw := "F1", description := "HCA vf", tempr := "45", port := "1" }

/-- Test device: a virtual function whose parent address matches no
device record. -/
def vfOrphan : BfdDev :=
  { bdf := "0000:02:00.1", sriov := "VF", vfParent := "0000:09:00.0", sn := "SN200"
    pn := "P2", fw := "F2", description := "orphan vf", tempr := "45", port := "1" }

/-- The adapter record assembled from `pfA`, `vfA1`, `vfA2`: the second
VF is inserted directly behind the parent, in front of the first VF. -/
def hcaA : MlnxHCA :=
  { bfd_devices := [pfA, vfA2, vfA1], sn := "SN100", pn := "P1", fw := "F1"
    description := "HCA card", tempr := "45", hca_index_val := some 1 }

/-- Test devices for the serial number grouping scenario: two port
records of a dual-port physical function at one bus address. -/
def pB1 : BfdDev :=
  { bdf := "0000:03:00.0", sriov := "PF", vfParent := "-", sn := "SN123"
    pn := "PN-A", fw := "FW1", description := "dual port card", tempr := "50", port := "1" }

/-- Second port record of the dual-port physical function `pB1`. -/
def pB2 : BfdDev :=
  { bdf := "0000:03:00.0", sriov := "PF", vfParent := "-", sn := "SN123"
    pn := "PN-A", fw := "FW1", description := "dual port card", tempr := "50", port := "2" }

/-- Single-port physical function sharing the serial number of `pB1`. -/
def pB3 : BfdDev :=
  { bdf := "0000:04:00.0", sriov := "PF", vfParent := "-", sn := "SN123"
    pn := "PN-A", fw := "FW1", description := "single port card", tempr := "50", port := "1" }

/-- The single adapter record assembled from `pB1`, `pB2`, `pB3`. -/
def hcaB : MlnxHCA :=
  { bfd_devices := [pB1, pB2, pB3], sn := "SN123", pn := "PN-A", fw := "FW1"
    description := "dual port card", tempr := "50", hca_index_val := some 1 }

/-- Test report item with one device record whose `State` value extends
the pattern `actv` by a suffix. -/
def itemActvSuffix : ReportItem :=
  { hca_info := [("SN", "X")], bdf_devices := [[("State", "actv999")]] }

/-- Test report item with one active device record. -/
def itemActv : ReportItem :=
  { hca_info := [("SN", "X")], bdf_devices := [[("State", "actv")]] }

/-- Test configuration with a positive field selection of `Dev`. -/
def cfgPosDev : Config :=
  { output_view := "system", output_order := ["Dev", "PN", "SN", "FW", "Desc"]
    show_warnings_and_errors := true, output_format := "human_readable"
    output_separator_char := "-", output_fields_filter_positive := ["Dev"]
    output_fields_filter_negative := [], where_output_filter := [] }

/-- Test configuration with a negative field selection of `PN` and `FW`. -/
def cfgNegPnFw : Config :=
  { output_view := "system", output_order := ["Dev", "PN", "SN", "FW", "Desc"]
    show_warnings_and_errors := true, output_format := "human_readable"
    output_separator_char := "-", output_fields_filter_positive := []
    output_fields_filter_negative := ["PN", "FW"], where_output_filter := [] }

/-- The configuration left behind by running the negative selection of
`cfgNegPnFw`: the shared `output_order` list has lost `PN` and `FW`. -/
def cfgNegResult : Config :=
  { cfgNegPnFw with output_order := ["Dev", "SN", "Desc"] }

/-- Test report item with one homogeneous adapter summary and one device
record, used to witness the field selection property. -/
def itemDevPn : ReportItem :=
  { hca_info := [("Dev", "#1"), ("PN", "p")], bdf_devices := [[("Dev", "#1")]] }

/-- Test report items for field selection: the second item carries a
field `Extra` that the first item lacks. -/
def itemsSelect : List ReportItem :=
  [{ hca_info := [("Dev", "#1"), ("PN", "p")], bdf_devices := [[("Dev", "#1")]] },
   { hca_info := [("Dev", "#2"), ("Extra", "e")], bdf_devices := [[("Dev", "#2")]] }]

/-- Test report item for the width computations. -/
def itemWidths : ReportItem :=
  { hca_info := [("A", "x"), ("B", "y")], bdf_devices := [[("C", "val"), ("D", "ww")]] }

/-! Generic list lemmas about the remove-collected-then-erase idiom of the
source. -/

section EraseLemmas

variable {α : Type _} [BEq α] [LawfulBEq α]

theorem foldl_erase_cons_of_ne (x : α) (t rs : List α) (h : ∀ r ∈ rs, r ≠ x) :
    rs.foldl List.erase (x :: t) = x :: rs.foldl List.erase t := by
  induction rs generalizing t with
  | nil => rfl
  | cons r rs ih =>
    have hxr : ¬(x == r) := by
      simp only [beq_iff_eq]
      exact fun he => h r (List.mem_cons_self r rs) he.symm
    simp only [List.foldl_cons]
    rw [List.erase_cons_tail hxr]
    exact ih (t.erase r) (fun r' hr' => h r' (List.mem_cons_of_mem r hr'))

/-- Collecting the elements satisfying `f` and then deleting them one by
one with `list.remove` (first equal occurrence) leaves exactly the
elements not satisfying `f`, in order.  This is the idiom of
`Output.apply_where_output_filters`. -/
theorem filter_foldl_erase (l : List α) (f : α → Bool) :
    (l.filter f).foldl List.erase l = l.filter (fun x => !(f x)) := by
  induction l with
  | nil => rfl
  | cons x t ih =>
    by_cases hf : f x = true
    · rw [List.filter_cons_of_pos hf, List.foldl_cons, List.erase_cons_head, ih,
        List.filter_cons_of_neg (by simp [hf])]
    · have hf' : f x = false := by simpa using hf
      rw [List.filter_cons_of_neg (by simp [hf']),
        foldl_erase_cons_of_ne x t _ ?hne, ih,
        List.filter_cons_of_pos (by simp [hf'])]
      case hne =>
        intro r hr he
        have : f r = true := List.of_mem_filter hr
        rw [he, hf'] at this
        exact Bool.false_ne_true this

omit [LawfulBEq α] in
theorem foldl_erase_sublist (rs l : List α) :
    List.Sublist (rs.foldl List.erase l) l := by
  induction rs generalizing l with
  | nil => exact List.Sublist.refl l
  | cons r rs ih =>
    exact List.Sublist.trans (ih (l.erase r)) (List.erase_sublist r l)

omit [BEq α] [LawfulBEq α] in
theorem map_filter_eq_filterMap {β : Type _} (g : α → β) (q : β → Bool) (l : List α) :
    (l.map g).filter q
      = l.filterMap (fun x => if q (g x) then some (g x) else none) := by
  induction l with
  | nil => rfl
  | cons x t ih =>
    by_cases hq : q (g x) = true
    · simp [List.filterMap_cons, hq, ih]
    · simp [List.filterMap_cons, hq, ih]

theorem sublist_sum_le (l₁ l₂ : List Nat) (h : List.Sublist l₁ l₂) :
    l₁.sum ≤ l₂.sum :=
  List.Sublist.sum_le_sum h (fun a _ => Nat.zero_le a)

end EraseLemmas

/-! Lemmas about the predicate ("where") filter. -/

section WhereLemmas

/-- The imperative collect-then-remove loop body of one constraint,
rewritten declaratively: a device record survives exactly when it does
not fail the constraint, and an item survives exactly when it keeps a
device record and its summary does not fail the constraint. -/
theorem where_step_eq (rmatch : String → String → Bool) (items : List ReportItem)
    (kp : String × String) :
    where_step rmatch items kp
      = items.filterMap (fun hca =>
          let devs := hca.bdf_devices.filter
            (fun d => !(fails_filter rmatch kp.1 kp.2 d))
          if devs.isEmpty || fails_filter rmatch kp.1 kp.2 hca.hca_info then none
          else some { hca_info := hca.hca_info, bdf_devices := devs }) := by
  unfold where_step
  have hmap :
      items.map (fun hca =>
        let remove_bdf := hca.bdf_devices.filter (fails_filter rmatch kp.1 kp.2)
        { hca with bdf_devices := remove_bdf.foldl List.erase hca.bdf_devices })
      = items.map (fun hca =>
          { hca_info := hca.hca_info
            bdf_devices :=
              hca.bdf_devices.filter (fun d => !(fails_filter rmatch kp.1 kp.2 d)) }) := by
    apply List.map_congr_left
    intro hca _
    simp only
    rw [filter_foldl_erase]
  rw [hmap, filter_foldl_erase, map_filter_eq_filterMap]
  apply congrArg (fun f => List.filterMap f items)
  funext hca
  simp only
  by_cases hc :
      (List.isEmpty (hca.bdf_devices.filter (fun d => !(fails_filter rmatch kp.1 kp.2 d)))
        || fails_filter rmatch kp.1 kp.2 hca.hca_info) = true
  · simp [hc]
  · simp [hc]

theorem where_step_length_le (rmatch : String → String → Bool)
    (items : List ReportItem) (kp : String × String) :
    (where_step rmatch items kp).length ≤ items.length := by
  unfold where_step
  refine le_trans (List.Sublist.length_le (foldl_erase_sublist _ _)) ?_
  rw [List.length_map]

theorem where_step_totalDevs_le (rmatch : String → String → Bool)
    (items : List ReportItem) (kp : String × String) :
    totalDevs (where_step rmatch items kp) ≤ totalDevs items := by
  unfold where_step totalDevs
  refine le_trans (sublist_sum_le _ _ (List.Sublist.map _ (foldl_erase_sublist _ _))) ?_
  rw [List.map_map]
  refine List.sum_le_sum ?_
  intro it _
  simp only [Function.comp]
  exact List.Sublist.length_le (foldl_erase_sublist _ _)

theorem dict_foldl_key_mem (l : List (String × String)) :
    ∀ (acc : List (String × String)) (e : String × String),
      e ∈ l.foldl dict_update acc →
      e.1 ∈ acc.map Prod.fst ∨ e.1 ∈ l.map Prod.fst := by
  induction l with
  | nil => intro acc e h; exact Or.inl (List.mem_map_of_mem Prod.fst h)
  | cons kv rest ih =>
    intro acc e h
    rcases ih (dict_update acc kv) e h with h' | h'
    · unfold dict_update at h'
      by_cases hany : acc.any (fun x => x.1 == kv.1) = true
      · rw [if_pos hany] at h'
        rcases List.mem_map.mp h' with ⟨x, hx, hx1⟩
        rcases List.mem_map.mp hx with ⟨y, hy, hy1⟩
        by_cases hyk : (y.1 == kv.1) = true
        · right
          rw [List.map_cons]
          rw [if_pos hyk] at hy1
          rw [← hx1, ← hy1]
          have hyk' : y.1 = kv.1 := by simpa using hyk
          simp [hyk']
        · left
          rw [if_neg hyk] at hy1
          rw [← hx1, ← hy1]
          exact List.mem_map_of_mem Prod.fst hy
      · rw [if_neg hany] at h'
        rcases List.mem_map.mp h' with ⟨x, hx, hx1⟩
        rcases List.mem_append.mp hx with hx' | hx'
        · left; rw [← hx1]; exact List.mem_map_of_mem Prod.fst hx'
        · right
          rw [List.map_cons]
          rw [List.mem_singleton.mp hx'] at hx1
          rw [← hx1]
          exact List.mem_cons_self _ _
    · right
      rw [List.map_cons]
      exact List.mem_cons_of_mem _ h'

/-- Appending a constraint whose field name is fresh extends the
constraint dictionary by that pair. -/
theorem dict_of_pairs_append_fresh (raw : List (String × String))
    (x : String × String) (h : ∀ e ∈ raw, e.1 ≠ x.1) :
    dict_of_pairs (raw ++ [x]) = dict_of_pairs raw ++ [x] := by
  show (raw ++ [x]).foldl dict_update [] = dict_of_pairs raw ++ [x]
  rw [List.foldl_append]
  show dict_update (dict_of_pairs raw) x = dict_of_pairs raw ++ [x]
  unfold dict_update
  rw [if_neg]
  intro hany
  rcases List.any_eq_true.mp hany with ⟨e, he, hbeq⟩
  have he1 : e.1 = x.1 := by simpa using hbeq
  have hmem : e.1 ∈ raw.map Prod.fst := by
    rcases dict_foldl_key_mem raw [] e he with h' | h'
    · simp at h'
    · exact h'
  rcases List.mem_map.mp hmem with ⟨y, hy, hy1⟩
  exact h y hy (by rw [hy1, he1])

end WhereLemmas

/-! Lemmas about the field selection filter. -/

section SelectLemmas

theorem contains_true_iff_mem (l : List String) (a : String) :
    l.contains a = true ↔ a ∈ l :=
  List.elem_iff

/-- Popping the keys of `ks` one by one from a dictionary keeps exactly
the entries whose key is not in `ks`. -/
theorem remove_keys_eq_filter (ks : List String) (d : Dict) :
    remove_keys d ks = d.filter (fun kv => !(ks.contains kv.1)) := by
  induction ks generalizing d with
  | nil =>
    show d = d.filter (fun kv => !(List.contains [] kv.1))
    simp
  | cons k ks ih =>
    show remove_keys (dict_pop d k) ks = _
    rw [ih]
    unfold dict_pop
    rw [List.filter_filter]
    apply List.filter_congr
    intro kv _
    simp only [List.contains_cons, Bool.not_or]
    rw [Bool.and_comm]

theorem mem_remove_keys (ks : List String) (d : Dict) (kv : String × String) :
    kv ∈ remove_keys d ks ↔ kv ∈ d ∧ ks.contains kv.1 = false := by
  rw [remove_keys_eq_filter, List.mem_filter]
  simp

theorem remove_keys_nil (d : Dict) : remove_keys d [] = d := rfl

theorem select_branch_pos (config : Config)
    (h : config.output_fields_filter_positive ≠ []) :
    select_branch config = (config, config.output_fields_filter_positive) := by
  unfold select_branch
  rw [if_pos]
  exact List.length_pos.mpr h

theorem select_branch_neg (config : Config)
    (hp : config.output_fields_filter_positive = [])
    (hn : config.output_fields_filter_negative ≠ []) :
    select_branch config =
      ({ config with output_order :=
          config.output_fields_filter_negative.foldl List.erase config.output_order },
        config.output_fields_filter_negative.foldl List.erase config.output_order) := by
  unfold select_branch
  rw [if_neg (by simp [hp]), if_pos (List.length_pos.mpr hn)]

theorem apply_select_nil (config : Config) :
    apply_select_output_filters config []
      = .ok ((select_branch config).1, (select_branch config).2, []) := rfl

theorem apply_select_cons_err (config : Config) (it0 : ReportItem)
    (rest : List ReportItem) (h : it0.bdf_devices = []) :
    apply_select_output_filters config (it0 :: rest)
      = .error "IndexError: list index out of range" := by
  show (match it0.bdf_devices with
        | [] => (Except.error "IndexError: list index out of range" :
            Except String (Config × List String × List ReportItem))
        | d0 :: _ =>
          Except.ok ((select_branch config).1, (select_branch config).2,
            select_apply (select_remove_list (select_branch config).2 it0 d0)
              (it0 :: rest))) = _
  rw [h]

theorem apply_select_cons (config : Config) (it0 : ReportItem)
    (rest : List ReportItem) (d0 : Dict) (ds : List Dict)
    (h : it0.bdf_devices = d0 :: ds) :
    apply_select_output_filters config (it0 :: rest)
      = .ok ((select_branch config).1, (select_branch config).2,
          select_apply (select_remove_list (select_branch config).2 it0 d0)
            (it0 :: rest)) := by
  show (match it0.bdf_devices with
        | [] => (Except.error "IndexError: list index out of range" :
            Except String (Config × List String × List ReportItem))
        | d0 :: _ =>
          Except.ok ((select_branch config).1, (select_branch config).2,
            select_apply (select_remove_list (select_branch config).2 it0 d0)
              (it0 :: rest))) = _
  rw [h]

theorem select_apply_nil_removes (items : List ReportItem) :
    select_apply [] items = items := by
  unfold select_apply
  have h : ∀ h0 ∈ items,
      ({ hca_info := remove_keys h0.hca_info []
         bdf_devices := h0.bdf_devices.map (fun d => remove_keys d []) } : ReportItem)
        = h0 := by
    intro h0 _
    show ({ hca_info := h0.hca_info
            bdf_devices := h0.bdf_devices.map (fun d => d) } : ReportItem) = h0
    rw [List.map_id']
  rw [List.map_congr_left h, List.map_id']

theorem select_remove_list_eq_nil (order : List String) (it0 : ReportItem) (d0 : Dict)
    (h : ∀ k ∈ it0.hca_info.map (fun kv => kv.1) ++ d0.map (fun kv => kv.1),
      order.contains k = true) :
    select_remove_list order it0 d0 = [] := by
  unfold select_remove_list
  rw [List.filter_eq_nil_iff]
  intro k hk
  have hc := h k (List.mem_dedup.mp hk)
  rw [hc]
  simp

/-- For a mapping all of whose keys occur among the keys of the first item,
popping the removal list keeps exactly the fields of the working order. -/
theorem remove_keys_select_eq_filter (order : List String) (it0 : ReportItem)
    (d0 : Dict) (m : Dict)
    (hm : ∀ kv ∈ m, kv.1 ∈ it0.hca_info.map (fun kv => kv.1) ++ d0.map (fun kv => kv.1)) :
    remove_keys m (select_remove_list order it0 d0)
      = m.filter (fun kv => order.contains kv.1) := by
  rw [remove_keys_eq_filter]
  apply List.filter_congr
  intro kv hkv
  by_cases hc : order.contains kv.1 = true
  · rw [hc]
    have hnot : (select_remove_list order it0 d0).contains kv.1 = false := by
      cases hb : (select_remove_list order it0 d0).contains kv.1 with
      | false => rfl
      | true =>
        have hmem := (contains_true_iff_mem _ _).mp hb
        unfold select_remove_list at hmem
        rw [List.mem_filter] at hmem
        rcases hmem with ⟨_, hpred⟩
        rw [hc] at hpred
        simp at hpred
    rw [hnot]
    rfl
  · have hcf : order.contains kv.1 = false := by
      cases hb : order.contains kv.1 with
      | true => exact absurd hb hc
      | false => rfl
    rw [hcf]
    have hmem : kv.1 ∈ select_remove_list order it0 d0 := by
      unfold select_remove_list
      rw [List.mem_filter]
      refine ⟨List.mem_dedup.mpr (hm kv hkv), ?_⟩
      rw [hcf]
      rfl
    rw [(contains_true_iff_mem _ _).mpr hmem]
    rfl

/-- The removal pass of the selection filter acts as a per-mapping filter
to the working field order, on items whose keys all occur among the keys
of the first item. -/
theorem select_apply_eq_filter (order : List String) (it0 : ReportItem)
    (rest : List ReportItem) (d0 : Dict)
    (hom : ∀ it ∈ it0 :: rest,
      (∀ kv ∈ it.hca_info,
        kv.1 ∈ it0.hca_info.map (fun kv => kv.1) ++ d0.map (fun kv => kv.1)) ∧
      (∀ d ∈ it.bdf_devices, ∀ kv ∈ d,
        kv.1 ∈ it0.hca_info.map (fun kv => kv.1) ++ d0.map (fun kv => kv.1))) :
    select_apply (select_remove_list order it0 d0) (it0 :: rest)
      = (it0 :: rest).map (fun it =>
          { hca_info := it.hca_info.filter (fun kv => order.contains kv.1)
            bdf_devices := it.bdf_devices.map (fun d =>
              d.filter (fun kv => order.contains kv.1)) }) := by
  unfold select_apply
  apply List.map_congr_left
  intro it hit
  rcases hom it hit with ⟨h1, h2⟩
  have e1 : remove_keys it.hca_info (select_remove_list order it0 d0)
      = it.hca_info.filter (fun kv => order.contains kv.1) :=
    remove_keys_select_eq_filter order it0 d0 it.hca_info h1
  have e2 : it.bdf_devices.map (fun d => remove_keys d (select_remove_list order it0 d0))
      = it.bdf_devices.map (fun d => d.filter (fun kv => order.contains kv.1)) :=
    List.map_congr_left (fun d hd => remove_keys_select_eq_filter order it0 d0 d (h2 d hd))
  rw [e1, e2]

/-- Every key surviving the removal pass of a positive selection is a
selected key, provided it was a key of the first item. -/
theorem keys_remove_keys_select (order : List String) (it0 : ReportItem) (d0 : Dict)
    (m : Dict)
    (hm : ∀ kv ∈ m, kv.1 ∈ it0.hca_info.map (fun kv => kv.1) ++ d0.map (fun kv => kv.1)) :
    ∀ k ∈ (remove_keys m (select_remove_list order it0 d0)).map (fun kv => kv.1),
      order.contains k = true := by
  intro k hk
  rcases List.mem_map.mp hk with ⟨kv, hkv, hk1⟩
  rcases (mem_remove_keys _ _ _).mp hkv with ⟨hkvm, hkc⟩
  by_contra hcon
  have hfalse : order.contains kv.1 = false := by
    rw [hk1]
    cases hb : order.contains k with
    | true => exact absurd hb hcon
    | false => rfl
  have hmem : kv.1 ∈ select_remove_list order it0 d0 := by
    unfold select_remove_list
    rw [List.mem_filter]
    refine ⟨List.mem_dedup.mpr (hm kv hkvm), ?_⟩
    show (!(order.contains kv.1)) = true
    rw [hfalse]
    rfl
  rw [(contains_true_iff_mem _ _).mpr hmem] at hkc
  cases hkc

end SelectLemmas

/-! Lemmas about the topology assembler. -/

section AssemblerLemmas

theorem isPF_not_vf (d : BfdDev) (h : isPF d = true) : d.sriov ≠ "VF" := by
  unfold isPF at h
  rcases Bool.or_eq_true_iff.mp h with h' | h' <;>
    simp only [beq_iff_eq] at h' <;> simp [h']

/-- The insertion loop only ever adds elements behind the processed
front, so the front is a prefix of the result. -/
theorem add_bdf_dev_loop_front (new : BfdDev) :
    ∀ (fuel : Nat) (back front : List BfdDev),
      ∃ s, add_bdf_dev_loop new fuel front back = front ++ s := by
  intro fuel
  induction fuel with
  | zero =>
    intro back front
    cases back with
    | nil => exact ⟨[], by simp [add_bdf_dev_loop]⟩
    | cons d rest => exact ⟨d :: rest, rfl⟩
  | succ fuel ih =>
    intro back front
    cases back with
    | nil => exact ⟨[], by simp [add_bdf_dev_loop]⟩
    | cons d rest =>
      simp only [add_bdf_dev_loop]
      by_cases hm : (d.bdf == new.vfParent) = true
      · rw [if_pos hm]
        rcases ih (new :: rest) (front ++ [d]) with ⟨s, hs⟩
        exact ⟨[d] ++ s, by rw [hs, List.append_assoc]⟩
      · rw [if_neg hm]
        rcases ih rest (front ++ [d]) with ⟨s, hs⟩
        exact ⟨[d] ++ s, by rw [hs, List.append_assoc]⟩

/-- The insertion loop keeps the head of the device list in place. -/
theorem add_bdf_dev_loop_head (new f : BfdDev) (t : List BfdDev) (fuel : Nat) :
    ∃ s, add_bdf_dev_loop new fuel [] (f :: t) = f :: s := by
  cases fuel with
  | zero => exact ⟨t, rfl⟩
  | succ fuel =>
    simp only [add_bdf_dev_loop]
    by_cases hm : (f.bdf == new.vfParent) = true
    · rw [if_pos hm]
      rcases add_bdf_dev_loop_front new fuel (new :: t) [f] with ⟨s, hs⟩
      exact ⟨s, hs⟩
    · rw [if_neg hm]
      rcases add_bdf_dev_loop_front new fuel t [f] with ⟨s, hs⟩
      exact ⟨s, hs⟩

/-- The insertion loop only ever inserts copies of `new`, so the
multiplicity of every other record is unchanged. -/
theorem add_bdf_dev_loop_count (new x : BfdDev) (hx : x ≠ new) :
    ∀ (fuel : Nat) (back front : List BfdDev),
      (add_bdf_dev_loop new fuel front back).count x
        = front.count x + back.count x := by
  have hxnew : (x == new) = false := by simp [hx]
  intro fuel
  induction fuel with
  | zero =>
    intro back front
    cases back with
    | nil => simp [add_bdf_dev_loop]
    | cons d rest => simp [add_bdf_dev_loop, List.count_append]
  | succ fuel ih =>
    intro back front
    cases back with
    | nil => simp [add_bdf_dev_loop]
    | cons d rest =>
      simp only [add_bdf_dev_loop]
      by_cases hm : (d.bdf == new.vfParent) = true
      · rw [if_pos hm, ih (new :: rest) (front ++ [d])]
        have hx2 : ¬(new = x) := fun h => hx h.symm
        simp [List.count_append, List.count_cons, hxnew, hx2]
        omega
      · rw [if_neg hm, ih rest (front ++ [d])]
        simp [List.count_append, List.count_cons]
        omega

theorem vf_after_parent_nil : vf_after_parent [] := by
  intro pre v suf h
  simp at h

/-- Inserting a record in the middle of a list preserves the ordering
invariant, provided the inserted record (when a VF) has a witness in the
part before the insertion point. -/
theorem vf_after_parent_insert (A B : List BfdDev) (x : BfdDev)
    (hA : vf_after_parent (A ++ B))
    (hx : x.sriov = "VF" → ∃ u, u ∈ A ∧ u.bdf = x.vfParent) :
    vf_after_parent (A ++ x :: B) := by
  intro pre v suf heq hv
  rcases List.append_eq_append_iff.mp heq with ⟨a', ha1, ha2⟩ | ⟨c', hc1, hc2⟩
  · -- pre = A ++ a' and x :: B = a' ++ v :: suf
    cases a' with
    | nil =>
      rw [List.append_nil] at ha1
      rw [List.nil_append] at ha2
      obtain ⟨hxv, hB⟩ := List.cons_eq_cons.mp ha2
      rcases hx (by rw [hxv]; exact hv) with ⟨u, hu, hub⟩
      refine ⟨u, by rw [ha1]; exact hu, by rw [← hxv]; exact hub⟩
    | cons w a'' =>
      simp only [List.cons_append] at ha2
      obtain ⟨hxw, hB⟩ := List.cons_eq_cons.mp ha2
      have hAB : A ++ B = (A ++ a'') ++ v :: suf := by
        rw [hB, ← List.append_assoc]
      rcases hA (A ++ a'') v suf hAB hv with ⟨u, hu, hub⟩
      refine ⟨u, ?_, hub⟩
      rw [ha1, ← hxw]
      rcases List.mem_append.mp hu with h' | h'
      · exact List.mem_append.mpr (Or.inl h')
      · exact List.mem_append.mpr (Or.inr (List.mem_cons_of_mem x h'))
  · -- A = pre ++ c' and v :: suf = c' ++ x :: B
    cases c' with
    | nil =>
      rw [List.append_nil] at hc1
      rw [List.nil_append] at hc2
      obtain ⟨hvx, hsB⟩ := List.cons_eq_cons.mp hc2
      rcases hx (by rw [← hvx]; exact hv) with ⟨u, hu, hub⟩
      refine ⟨u, by rw [← hc1]; exact hu, by rw [hvx]; exact hub⟩
    | cons w c'' =>
      simp only [List.cons_append] at hc2
      obtain ⟨hvw, hsuf⟩ := List.cons_eq_cons.mp hc2
      have hAB : A ++ B = pre ++ v :: (c'' ++ B) := by
        rw [hc1, ← hvw]
        simp [List.append_assoc]
      rcases hA pre v (c'' ++ B) hAB hv with ⟨u, hu, hub⟩
      exact ⟨u, hu, hub⟩

theorem vf_after_parent_append_not_vf (l : List BfdDev) (x : BfdDev)
    (hx : x.sriov ≠ "VF") (h : vf_after_parent l) :
    vf_after_parent (l ++ [x]) := by
  have h' : vf_after_parent (l ++ []) := by
    rw [List.append_nil]; exact h
  exact vf_after_parent_insert l [] x h' (fun hvf => absurd hvf hx)

theorem add_bdf_dev_loop_placed (new : BfdDev) :
    ∀ (fuel : Nat) (back front : List BfdDev),
      vf_after_parent (front ++ back) →
      vf_after_parent (add_bdf_dev_loop new fuel front back) := by
  intro fuel
  induction fuel with
  | zero =>
    intro back front h
    cases back with
    | nil =>
      show vf_after_parent (add_bdf_dev_loop new 0 front [])
      rw [show add_bdf_dev_loop new 0 front [] = front from by simp [add_bdf_dev_loop]]
      rw [List.append_nil] at h
      exact h
    | cons d rest => exact h
  | succ fuel ih =>
    intro back front h
    cases back with
    | nil =>
      rw [show add_bdf_dev_loop new (fuel + 1) front [] = front from by
        simp [add_bdf_dev_loop]]
      rw [List.append_nil] at h
      exact h
    | cons d rest =>
      simp only [add_bdf_dev_loop]
      by_cases hm : (d.bdf == new.vfParent) = true
      · rw [if_pos hm]
        refine ih (new :: rest) (front ++ [d]) ?_
        have hins : vf_after_parent ((front ++ [d]) ++ new :: rest) := by
          refine vf_after_parent_insert (front ++ [d]) rest new ?_ ?_
          · rw [List.append_assoc, List.singleton_append]
            exact h
          · intro _
            refine ⟨d, List.mem_append.mpr (Or.inr (List.mem_singleton.mpr rfl)), ?_⟩
            exact beq_iff_eq.mp hm
        exact hins
      · rw [if_neg hm]
        refine ih rest (front ++ [d]) ?_
        rw [List.append_assoc, List.singleton_append]
        exact h

theorem add_bdf_dev_sn (hca : MlnxHCA) (new : BfdDev) :
    (hca.add_bdf_dev new).sn = hca.sn := by
  unfold MlnxHCA.add_bdf_dev
  split <;> rfl

theorem add_bdf_dev_hca_index_val (hca : MlnxHCA) (new : BfdDev) :
    (hca.add_bdf_dev new).hca_index_val = hca.hca_index_val := by
  unfold MlnxHCA.add_bdf_dev
  split <;> rfl

theorem add_bdf_dev_not_vf (hca : MlnxHCA) (new : BfdDev) (h : new.sriov ≠ "VF") :
    hca.add_bdf_dev new = { hca with bfd_devices := hca.bfd_devices ++ [new] } := by
  unfold MlnxHCA.add_bdf_dev
  rw [if_neg (by simp [h])]

theorem add_bdf_dev_placed (hca : MlnxHCA) (new : BfdDev)
    (hnv : new.sriov = "VF" → new.vfParent ≠ "-")
    (h : vf_after_parent hca.bfd_devices) :
    vf_after_parent (hca.add_bdf_dev new).bfd_devices := by
  unfold MlnxHCA.add_bdf_dev
  by_cases hc : (new.sriov == "VF" && !(new.vfParent == "-")) = true
  · rw [if_pos hc]
    exact add_bdf_dev_loop_placed new _ _ [] (by rw [List.nil_append]; exact h)
  · rw [if_neg hc]
    refine vf_after_parent_append_not_vf _ _ ?_ h
    intro hvf
    exact hc (by simp [hvf, hnv hvf])

theorem add_bdf_dev_founder (hca : MlnxHCA) (new : BfdDev) (hvf : new.sriov = "VF")
    (h : founder_ok hca) : founder_ok (hca.add_bdf_dev new) := by
  obtain ⟨f, t, hd, hpf, hsn, hnin⟩ := h
  have hfnew : f ≠ new := by
    intro he
    exact isPF_not_vf f hpf (by rw [he]; exact hvf)
  unfold MlnxHCA.add_bdf_dev
  by_cases hc : (new.sriov == "VF" && !(new.vfParent == "-")) = true
  · rw [if_pos hc]
    rw [hd]
    obtain ⟨s, hs⟩ := add_bdf_dev_loop_head new f t (2 * (f :: t).length + 1)
    refine ⟨f, s, hs, hpf, hsn, ?_⟩
    have hcount := add_bdf_dev_loop_count new f hfnew (2 * (f :: t).length + 1) (f :: t) []
    rw [hs] at hcount
    have ht : t.count f = 0 := List.count_eq_zero.mpr hnin
    simp [List.count_cons_self, ht] at hcount
    exact List.count_eq_zero.mp hcount
  · rw [if_neg hc]
    rw [hd]
    refine ⟨f, t ++ [new], by simp, hpf, hsn, ?_⟩
    intro hmem
    rcases List.mem_append.mp hmem with h' | h'
    · exact hnin h'
    · exact hfnew (List.mem_singleton.mp h')

theorem update_first_preserve (Q : MlnxHCA → Prop) (dev : BfdDev)
    (hadd : ∀ h, Q h → Q (h.add_bdf_dev dev)) :
    ∀ (hcas : List MlnxHCA) (sn : String), (∀ h ∈ hcas, Q h) →
      ∀ h ∈ update_first_by_sn hcas sn dev, Q h := by
  intro hcas
  induction hcas with
  | nil =>
    intro sn _ x hx
    simp [update_first_by_sn] at hx
  | cons h0 rest ih =>
    intro sn hall x hx
    unfold update_first_by_sn at hx
    by_cases hsn : (sn == h0.sn) = true
    · rw [if_pos hsn] at hx
      rcases List.mem_cons.mp hx with h' | h'
      · rw [h']
        exact hadd h0 (hall h0 (List.mem_cons_self h0 rest))
      · exact hall x (List.mem_cons_of_mem h0 h')
    · rw [if_neg hsn] at hx
      rcases List.mem_cons.mp hx with h' | h'
      · rw [h']
        exact hall h0 (List.mem_cons_self h0 rest)
      · exact ih sn (fun y hy => hall y (List.mem_cons_of_mem h0 hy)) x h'

theorem update_first_map {γ : Type _} (g : MlnxHCA → γ)
    (hg : ∀ h dev, g (h.add_bdf_dev dev) = g h) :
    ∀ (hcas : List MlnxHCA) (sn : String) (dev : BfdDev),
      (update_first_by_sn hcas sn dev).map g = hcas.map g := by
  intro hcas
  induction hcas with
  | nil => intro sn dev; rfl
  | cons h0 rest ih =>
    intro sn dev
    unfold update_first_by_sn
    by_cases hsn : (sn == h0.sn) = true
    · rw [if_pos hsn]
      simp [hg]
    · rw [if_neg hsn]
      simp [ih]

theorem get_hca_by_sn_none_iff (hcas : List MlnxHCA) (sn : String) :
    get_hca_by_sn hcas sn = none ↔ sn ∉ hcas.map MlnxHCA.sn := by
  unfold get_hca_by_sn
  rw [List.find?_eq_none]
  constructor
  · intro h hmem
    rcases List.mem_map.mp hmem with ⟨x, hx, hx1⟩
    exact h x hx (by simp [hx1])
  · intro h x hx hbeq
    exact h (List.mem_map.mpr ⟨x, hx, (beq_iff_eq.mp hbeq).symm⟩)

theorem pass2step_eq_of_not_vf (devs : List BfdDev) (hcas : List MlnxHCA)
    (dev : BfdDev) (h : ¬ dev.sriov = "VF") :
    pass2step devs hcas dev = .ok hcas := by
  unfold pass2step
  rw [if_neg (by simpa using h)]

theorem pass2step_eq_of_find_none (devs : List BfdDev) (hcas : List MlnxHCA)
    (dev : BfdDev) (hvf : dev.sriov = "VF")
    (hfind : devs.find? (fun p => dev.vfParent == p.bdf) = none) :
    pass2step devs hcas dev = .ok hcas := by
  unfold pass2step
  rw [if_pos (by simpa using hvf), hfind]

theorem pass2step_eq_of_found (devs : List BfdDev) (hcas : List MlnxHCA)
    (dev parent : BfdDev) (h1 : MlnxHCA) (hvf : dev.sriov = "VF")
    (hfind : devs.find? (fun p => dev.vfParent == p.bdf) = some parent)
    (hh : get_hca_by_sn hcas parent.sn = some h1) :
    pass2step devs hcas dev = .ok (update_first_by_sn hcas parent.sn dev) := by
  unfold pass2step
  rw [if_pos (by simpa using hvf), hfind]
  show (match get_hca_by_sn hcas parent.sn with
        | some _ => Except.ok (update_first_by_sn hcas parent.sn dev)
        | none => Except.error "This device has no parent PF") = _
  rw [hh]

theorem pass2step_eq_of_no_sn (devs : List BfdDev) (hcas : List MlnxHCA)
    (dev parent : BfdDev) (hvf : dev.sriov = "VF")
    (hfind : devs.find? (fun p => dev.vfParent == p.bdf) = some parent)
    (hh : get_hca_by_sn hcas parent.sn = none) :
    pass2step devs hcas dev = .error "This device has no parent PF" := by
  unfold pass2step
  rw [if_pos (by simpa using hvf), hfind]
  show (match get_hca_by_sn hcas parent.sn with
        | some _ => Except.ok (update_first_by_sn hcas parent.sn dev)
        | none => Except.error "This device has no parent PF") = _
  rw [hh]

/-- Outcome analysis of one pass 2 step: the run aborts on a device
exactly when it is a VF, its parent address is carried by some device
record, and the serial number of the first such record belongs to no
assembled adapter record. -/
theorem pass2step_error_iff (devs : List BfdDev) (hcas : List MlnxHCA) (dev : BfdDev) :
    (∃ e, pass2step devs hcas dev = .error e) ↔
      dev.sriov = "VF" ∧ ∃ parent,
        devs.find? (fun p => dev.vfParent == p.bdf) = some parent ∧
        parent.sn ∉ hcas.map MlnxHCA.sn := by
  by_cases hvf : dev.sriov = "VF"
  · cases hfind : devs.find? (fun p => dev.vfParent == p.bdf) with
    | none =>
      rw [pass2step_eq_of_find_none devs hcas dev hvf hfind]
      constructor
      · rintro ⟨e, he⟩
        cases he
      · rintro ⟨_, parent, hp, _⟩
        simp at hp
    | some parent =>
      cases hh : get_hca_by_sn hcas parent.sn with
      | some h1 =>
        rw [pass2step_eq_of_found devs hcas dev parent h1 hvf hfind hh]
        constructor
        · rintro ⟨e, he⟩
          cases he
        · rintro ⟨_, parent', hp, hsn⟩
          have hpp : parent = parent' := by simpa using hp
          rw [← hpp] at hsn
          rw [← get_hca_by_sn_none_iff] at hsn
          rw [hsn] at hh
          cases hh
      | none =>
        rw [pass2step_eq_of_no_sn devs hcas dev parent hvf hfind hh]
        constructor
        · intro _
          exact ⟨hvf, parent, rfl, (get_hca_by_sn_none_iff hcas parent.sn).mp hh⟩
        · intro _
          exact ⟨"This device has no parent PF", rfl⟩
  · rw [pass2step_eq_of_not_vf devs hcas dev hvf]
    constructor
    · rintro ⟨e, he⟩
      cases he
    · rintro ⟨hvf', _⟩
      exact absurd hvf' hvf

theorem pass2_nil (devs : List BfdDev) (hcas : List MlnxHCA) :
    pass2 devs [] hcas = .ok hcas := rfl

theorem pass2_cons_ok (devs : List BfdDev) (dev : BfdDev) (rest : List BfdDev)
    (hcas h1 : List MlnxHCA) (hstep : pass2step devs hcas dev = .ok h1) :
    pass2 devs (dev :: rest) hcas = pass2 devs rest h1 := by
  show (match pass2step devs hcas dev with
        | .ok hcas' => pass2 devs rest hcas'
        | .error e => .error e) = _
  rw [hstep]

theorem pass2_cons_error (devs : List BfdDev) (dev : BfdDev) (rest : List BfdDev)
    (hcas : List MlnxHCA) (e : String) (hstep : pass2step devs hcas dev = .error e) :
    pass2 devs (dev :: rest) hcas = .error e := by
  show (match pass2step devs hcas dev with
        | .ok hcas' => pass2 devs rest hcas'
        | .error e => .error e) = _
  rw [hstep]

theorem pass2step_ok_cases (devs : List BfdDev) (hcas : List MlnxHCA) (dev : BfdDev)
    (hcas' : List MlnxHCA) (h : pass2step devs hcas dev = .ok hcas') :
    hcas' = hcas ∨
      (dev.sriov = "VF" ∧ ∃ parent,
        devs.find? (fun p => dev.vfParent == p.bdf) = some parent ∧
        hcas' = update_first_by_sn hcas parent.sn dev) := by
  by_cases hvf : dev.sriov = "VF"
  · cases hfind : devs.find? (fun p => dev.vfParent == p.bdf) with
    | none =>
      rw [pass2step_eq_of_find_none devs hcas dev hvf hfind] at h
      exact Or.inl (Except.ok.inj h).symm
    | some parent =>
      cases hh : get_hca_by_sn hcas parent.sn with
      | some h1 =>
        rw [pass2step_eq_of_found devs hcas dev parent h1 hvf hfind hh] at h
        exact Or.inr ⟨hvf, parent, rfl, (Except.ok.inj h).symm⟩
      | none =>
        rw [pass2step_eq_of_no_sn devs hcas dev parent hvf hfind hh] at h
        cases h
  · rw [pass2step_eq_of_not_vf devs hcas dev hvf] at h
    exact Or.inl (Except.ok.inj h).symm

theorem pass2step_map {γ : Type _} (g : MlnxHCA → γ)
    (hg : ∀ h dev, g (h.add_bdf_dev dev) = g h)
    (devs : List BfdDev) (hcas : List MlnxHCA) (dev : BfdDev)
    (hcas' : List MlnxHCA) (h : pass2step devs hcas dev = .ok hcas') :
    hcas'.map g = hcas.map g := by
  rcases pass2step_ok_cases devs hcas dev hcas' h with h' | ⟨_, parent, _, h'⟩
  · rw [h']
  · rw [h', update_first_map g hg]

theorem pass2_map {γ : Type _} (g : MlnxHCA → γ)
    (hg : ∀ h dev, g (h.add_bdf_dev dev) = g h) (devs : List BfdDev) :
    ∀ (rest : List BfdDev) (hcas hcas' : List MlnxHCA),
      pass2 devs rest hcas = .ok hcas' → hcas'.map g = hcas.map g := by
  intro rest
  induction rest with
  | nil =>
    intro hcas hcas' h
    rw [pass2_nil] at h
    rw [← Except.ok.inj h]
  | cons dev rest ih =>
    intro hcas hcas' h
    cases hstep : pass2step devs hcas dev with
    | ok h1 =>
      rw [pass2_cons_ok devs dev rest hcas h1 hstep] at h
      rw [ih h1 hcas' h, pass2step_map g hg devs hcas dev h1 hstep]
    | error e =>
      rw [pass2_cons_error devs dev rest hcas e hstep] at h
      cases h

theorem pass2_preserve (devs : List BfdDev) (Q : MlnxHCA → Prop)
    (hadd : ∀ dev ∈ devs, dev.sriov = "VF" → ∀ h, Q h → Q (h.add_bdf_dev dev)) :
    ∀ (rest : List BfdDev), (∀ d ∈ rest, d ∈ devs) →
      ∀ (hcas hcas' : List MlnxHCA), pass2 devs rest hcas = .ok hcas' →
      (∀ h ∈ hcas, Q h) → ∀ h ∈ hcas', Q h := by
  intro rest
  induction rest with
  | nil =>
    intro _ hcas hcas' h hall
    rw [pass2_nil] at h
    rw [← Except.ok.inj h]
    exact hall
  | cons dev rest ih =>
    intro hmem hcas hcas' h hall
    cases hstep : pass2step devs hcas dev with
    | ok h1 =>
      rw [pass2_cons_ok devs dev rest hcas h1 hstep] at h
      have hall1 : ∀ x ∈ h1, Q x := by
        rcases pass2step_ok_cases devs hcas dev h1 hstep with h' | ⟨hvf, parent, _, h'⟩
        · rw [h']; exact hall
        · rw [h']
          exact update_first_preserve Q dev
            (hadd dev (hmem dev (List.mem_cons_self dev rest)) hvf) hcas parent.sn hall
      exact ih (fun d hd => hmem d (List.mem_cons_of_mem dev hd)) h1 hcas' h hall1
    | error e =>
      rw [pass2_cons_error devs dev rest hcas e hstep] at h
      cases h

/-- The run of pass 2 aborts exactly when some device record of the
processed list satisfies the abort condition of `pass2step_error_iff`,
stated against the serial numbers of the initial adapter list (pass 2
never changes the serial numbers). -/
theorem pass2_error_iff (devs : List BfdDev) :
    ∀ (rest : List BfdDev) (hcas : List MlnxHCA),
      (∃ e, pass2 devs rest hcas = .error e) ↔
        ∃ dev, dev ∈ rest ∧ dev.sriov = "VF" ∧ ∃ parent,
          devs.find? (fun p => dev.vfParent == p.bdf) = some parent ∧
          parent.sn ∉ hcas.map MlnxHCA.sn := by
  intro rest
  induction rest with
  | nil =>
    intro hcas
    simp [pass2]
  | cons dev rest ih =>
    intro hcas
    constructor
    · rintro ⟨e, he⟩
      cases hstep : pass2step devs hcas dev with
      | ok h1 =>
        rw [pass2_cons_ok devs dev rest hcas h1 hstep] at he
        rcases (ih h1).mp ⟨e, he⟩ with ⟨dev', hmem, hvf, parent, hfind, hsn⟩
        have hmap : h1.map MlnxHCA.sn = hcas.map MlnxHCA.sn :=
          pass2step_map MlnxHCA.sn add_bdf_dev_sn devs hcas dev h1 hstep
        refine ⟨dev', List.mem_cons_of_mem dev hmem, hvf, parent, hfind, ?_⟩
        rw [← hmap]
        exact hsn
      | error e' =>
        rcases (pass2step_error_iff devs hcas dev).mp ⟨e', hstep⟩ with
          ⟨hvf, parent, hfind, hsn⟩
        exact ⟨dev, List.mem_cons_self dev rest, hvf, parent, hfind, hsn⟩
    · rintro ⟨dev', hmem, hvf, parent, hfind, hsn⟩
      rcases List.mem_cons.mp hmem with h' | h'
      · subst h'
        cases hstep : pass2step devs hcas dev' with
        | ok h1 =>
          exfalso
          rcases (pass2step_error_iff devs hcas dev').mpr
            ⟨hvf, parent, hfind, hsn⟩ with ⟨e, he⟩
          rw [hstep] at he
          cases he
        | error e =>
          exact ⟨e, pass2_cons_error devs dev' rest hcas e hstep⟩
      · cases hstep : pass2step devs hcas dev with
        | ok h1 =>
          have hmap : h1.map MlnxHCA.sn = hcas.map MlnxHCA.sn :=
            pass2step_map MlnxHCA.sn add_bdf_dev_sn devs hcas dev h1 hstep
          have hsn1 : parent.sn ∉ h1.map MlnxHCA.sn := by
            rw [hmap]
            exact hsn
          rcases (ih h1).mpr ⟨dev', h', hvf, parent, hfind, hsn1⟩ with ⟨e, he⟩
          refine ⟨e, ?_⟩
          rw [pass2_cons_ok devs dev rest hcas h1 hstep]
          exact he
        | error e =>
          exact ⟨e, pass2_cons_error devs dev rest hcas e hstep⟩

theorem foldl_pass1_invariant (P : List MlnxHCA → Prop)
    (hstep : ∀ hcas dev, P hcas → P (pass1step hcas dev)) :
    ∀ (devs : List BfdDev) (hcas : List MlnxHCA),
      P hcas → P (devs.foldl pass1step hcas) := by
  intro devs
  induction devs with
  | nil => intro hcas h; exact h
  | cons dev rest ih =>
    intro hcas h
    exact ih (pass1step hcas dev) (hstep hcas dev h)

theorem pass1step_preserve (Q : MlnxHCA → Prop) (hcas : List MlnxHCA) (dev : BfdDev)
    (hadd : isPF dev = true → ∀ h, Q h → Q (h.add_bdf_dev dev))
    (hnew : isPF dev = true → ∀ n : Nat, Q { mkHCA dev with hca_index_val := some n })
    (hall : ∀ h ∈ hcas, Q h) : ∀ h ∈ pass1step hcas dev, Q h := by
  unfold pass1step
  by_cases hpf : isPF dev = true
  · rw [if_pos hpf]
    by_cases hany : (hcas.any fun h => dev.sn == h.sn) = true
    · rw [if_pos hany]
      intro h hmem
      rcases List.mem_map.mp hmem with ⟨h0, h0m, heq⟩
      by_cases hsn : (dev.sn == h0.sn) = true
      · rw [if_pos hsn] at heq
        rw [← heq]
        exact hadd hpf h0 (hall h0 h0m)
      · rw [if_neg hsn] at heq
        rw [← heq]
        exact hall h0 h0m
    · rw [if_neg hany]
      intro h hmem
      rcases List.mem_append.mp hmem with h' | h'
      · exact hall h h'
      · rw [List.mem_singleton.mp h']
        exact hnew hpf (hcas.length + 1)
  · rw [if_neg hpf]
    exact hall

theorem pass1_placed (devs : List BfdDev) :
    ∀ hca ∈ pass1 devs, vf_after_parent hca.bfd_devices := by
  unfold pass1
  refine foldl_pass1_invariant (fun hcas => ∀ hca ∈ hcas, vf_after_parent hca.bfd_devices)
    ?_ devs [] ?_
  · intro hcas dev hall
    refine pass1step_preserve _ hcas dev ?_ ?_ hall
    · intro hpf h hq
      rw [add_bdf_dev_not_vf h dev (isPF_not_vf dev hpf)]
      exact vf_after_parent_append_not_vf h.bfd_devices dev (isPF_not_vf dev hpf) hq
    · intro hpf n
      exact vf_after_parent_append_not_vf [] dev (isPF_not_vf dev hpf) vf_after_parent_nil
  · intro hca h
    cases h

theorem pass1step_index (hcas : List MlnxHCA) (dev : BfdDev)
    (h : hcas.map MlnxHCA.hca_index_val
          = (List.range hcas.length).map (fun k => some (k + 1))) :
    (pass1step hcas dev).map MlnxHCA.hca_index_val
      = (List.range (pass1step hcas dev).length).map (fun k => some (k + 1)) := by
  unfold pass1step
  by_cases hpf : isPF dev = true
  · rw [if_pos hpf]
    by_cases hany : (hcas.any fun h => dev.sn == h.sn) = true
    · rw [if_pos hany]
      rw [List.length_map, List.map_map, ← h]
      apply List.map_congr_left
      intro h0 _
      simp only [Function.comp]
      by_cases hsn : (dev.sn == h0.sn) = true
      · rw [if_pos hsn, add_bdf_dev_hca_index_val]
      · rw [if_neg hsn]
    · rw [if_neg hany]
      rw [List.map_append, h, List.length_append]
      simp [List.range_succ]
  · rw [if_neg hpf]
    exact h

theorem pass1_index (devs : List BfdDev) :
    (pass1 devs).map MlnxHCA.hca_index_val
      = (List.range (pass1 devs).length).map (fun k => some (k + 1)) := by
  unfold pass1
  refine foldl_pass1_invariant
    (fun hcas => hcas.map MlnxHCA.hca_index_val
      = (List.range hcas.length).map (fun k => some (k + 1)))
    pass1step_index devs [] rfl

theorem pass1_founder_aux :
    ∀ (rest seen : List BfdDev) (hcas : List MlnxHCA),
      (seen ++ rest).Nodup →
      (∀ hca ∈ hcas, ∃ f t, hca.bfd_devices = f :: t ∧ isPF f = true ∧
        f.sn = hca.sn ∧ f ∉ t ∧ ∀ d ∈ hca.bfd_devices, d ∈ seen) →
      ∀ hca ∈ rest.foldl pass1step hcas, ∃ f t, hca.bfd_devices = f :: t ∧
        isPF f = true ∧ f.sn = hca.sn ∧ f ∉ t ∧
        ∀ d ∈ hca.bfd_devices, d ∈ seen ++ rest := by
  intro rest
  induction rest with
  | nil =>
    intro seen hcas _ hall hca hmem
    rcases hall hca hmem with ⟨f, t, h1, h2, h3, h4, h5⟩
    refine ⟨f, t, h1, h2, h3, h4, fun d hd => ?_⟩
    rw [List.append_nil]
    exact h5 d hd
  | cons dev rest ih =>
    intro seen hcas hnd hall hca hmem
    have hnd' : ((seen ++ [dev]) ++ rest).Nodup := by
      rw [List.append_assoc, List.singleton_append]
      exact hnd
    have hdevnot : dev ∉ seen := by
      rcases List.nodup_append.mp hnd with ⟨_, _, hdisj⟩
      intro hy
      exact hdisj hy (List.mem_cons_self dev rest)
    have hall' : ∀ hca0 ∈ pass1step hcas dev, ∃ f t, hca0.bfd_devices = f :: t ∧
        isPF f = true ∧ f.sn = hca0.sn ∧ f ∉ t ∧
        ∀ d ∈ hca0.bfd_devices, d ∈ seen ++ [dev] := by
      intro hca0 hmem0
      unfold pass1step at hmem0
      by_cases hpf : isPF dev = true
      · rw [if_pos hpf] at hmem0
        by_cases hany : (hcas.any fun h => dev.sn == h.sn) = true
        · rw [if_pos hany] at hmem0
          rcases List.mem_map.mp hmem0 with ⟨h0, h0m, heq⟩
          rcases hall h0 h0m with ⟨f, t, h1, h2, h3, h4, h5⟩
          by_cases hsn : (dev.sn == h0.sn) = true
          · rw [if_pos hsn] at heq
            rw [← heq, add_bdf_dev_not_vf h0 dev (isPF_not_vf dev hpf)]
            refine ⟨f, t ++ [dev], by rw [h1]; rfl, h2, h3, ?_, ?_⟩
            · intro hm
              rcases List.mem_append.mp hm with h' | h'
              · exact h4 h'
              · have hfseen : f ∈ seen := h5 f (by rw [h1]; exact List.mem_cons_self f t)
                rw [List.mem_singleton.mp h'] at hfseen
                exact hdevnot hfseen
            · intro d hd
              rcases List.mem_append.mp hd with h' | h'
              · exact List.mem_append.mpr (Or.inl (h5 d h'))
              · exact List.mem_append.mpr (Or.inr h')
          · rw [if_neg hsn] at heq
            rw [← heq]
            exact ⟨f, t, h1, h2, h3, h4, fun d hd =>
              List.mem_append.mpr (Or.inl (h5 d hd))⟩
        · rw [if_neg hany] at hmem0
          rcases List.mem_append.mp hmem0 with h' | h'
          · rcases hall hca0 h' with ⟨f, t, h1, h2, h3, h4, h5⟩
            exact ⟨f, t, h1, h2, h3, h4, fun d hd =>
              List.mem_append.mpr (Or.inl (h5 d hd))⟩
          · rw [List.mem_singleton.mp h']
            refine ⟨dev, [], rfl, hpf, rfl, by simp, ?_⟩
            intro d hd
            rw [List.mem_singleton.mp hd]
            exact List.mem_append.mpr (Or.inr (List.mem_singleton.mpr rfl))
      · rw [if_neg hpf] at hmem0
        rcases hall hca0 hmem0 with ⟨f, t, h1, h2, h3, h4, h5⟩
        exact ⟨f, t, h1, h2, h3, h4, fun d hd =>
          List.mem_append.mpr (Or.inl (h5 d hd))⟩
    rcases ih (seen ++ [dev]) (pass1step hcas dev) hnd' hall' hca hmem with
      ⟨f, t, h1, h2, h3, h4, h5⟩
    refine ⟨f, t, h1, h2, h3, h4, fun d hd => ?_⟩
    have h6 := h5 d hd
    rw [List.append_assoc, List.singleton_append] at h6
    exact h6

theorem pass1_founder (devs : List BfdDev) (hnd : devs.Nodup) :
    ∀ hca ∈ pass1 devs, founder_ok hca := by
  intro hca hmem
  rcases pass1_founder_aux devs [] [] (by simpa using hnd)
      (by intro hca h; cases h) hca hmem with ⟨f, t, h1, h2, h3, h4, _⟩
  exact ⟨f, t, h1, h2, h3, h4⟩

/-- Every adapter record of a completed assembly satisfies the VF
placement invariant, provided every VF record carries a real parent
address (as the sysfs layer guarantees: `vfParent` is `"-"` exactly on
physical functions). -/
theorem assemble_placed (devs : List BfdDev) (hcas : List MlnxHCA)
    (hvp : ∀ d ∈ devs, d.sriov = "VF" → d.vfParent ≠ "-")
    (h : assemble devs = .ok hcas) :
    ∀ hca ∈ hcas, vf_after_parent hca.bfd_devices := by
  unfold assemble at h
  refine pass2_preserve devs (fun hca => vf_after_parent hca.bfd_devices) ?_ devs
    (fun d hd => hd) (pass1 devs) hcas h (pass1_placed devs)
  intro dev hdev hvf h0 hq
  exact add_bdf_dev_placed h0 dev (fun _ => hvp dev hdev hvf) hq

/-- Every adapter record of a completed assembly keeps its founding PF at
the head of its device list, with the serial number of the record, and
that founder appears nowhere else (the device records being pairwise
distinct). -/
theorem assemble_founder (devs : List BfdDev) (hcas : List MlnxHCA)
    (hnd : devs.Nodup) (h : assemble devs = .ok hcas) :
    ∀ hca ∈ hcas, founder_ok hca := by
  unfold assemble at h
  refine pass2_preserve devs founder_ok ?_ devs (fun d hd => hd) (pass1 devs) hcas h
    (pass1_founder devs hnd)
  intro dev _ hvf h0 hq
  exact add_bdf_dev_founder h0 dev hvf hq

/-- Pass 2 never touches the display indices assigned in pass 1. -/
theorem assemble_index (devs : List BfdDev) (hcas : List MlnxHCA)
    (h : assemble devs = .ok hcas) :
    hcas.map MlnxHCA.hca_index_val = (pass1 devs).map MlnxHCA.hca_index_val :=
  pass2_map MlnxHCA.hca_index_val add_bdf_dev_hca_index_val devs devs (pass1 devs) hcas h

theorem vf_after_parent_go_of_prop :
    ∀ (l seen : List BfdDev),
      (∀ pre v suf, l = pre ++ v :: suf → v.sriov = "VF" →
        ∃ u, u ∈ seen ++ pre ∧ u.bdf = v.vfParent) →
      vf_after_parent_go seen l = true := by
  intro l
  induction l with
  | nil => intro seen _; rfl
  | cons d rest ih =>
    intro seen h
    unfold vf_after_parent_go
    rw [Bool.and_eq_true]
    refine ⟨?_, ?_⟩
    · by_cases hvf : d.sriov = "VF"
      · rcases h [] d rest rfl hvf with ⟨u, hu, hub⟩
        rw [List.append_nil] at hu
        rw [Bool.or_eq_true]
        refine Or.inr ?_
        exact List.any_eq_true.mpr ⟨u, hu, by simp [hub]⟩
      · rw [Bool.or_eq_true]
        refine Or.inl ?_
        simp [hvf]
    · refine ih (seen ++ [d]) ?_
      intro pre v suf heq hvf
      rcases h (d :: pre) v suf (by rw [heq]; rfl) hvf with ⟨u, hu, hub⟩
      refine ⟨u, ?_, hub⟩
      rcases List.mem_append.mp hu with h' | h'
      · exact List.mem_append.mpr (Or.inl (List.mem_append.mpr (Or.inl h')))
      · rcases List.mem_cons.mp h' with h'' | h''
        · rw [h'']
          exact List.mem_append.mpr
            (Or.inl (List.mem_append.mpr (Or.inr (List.mem_singleton.mpr rfl))))
        · exact List.mem_append.mpr (Or.inr h'')

theorem vf_after_parentB_of_prop (l : List BfdDev) (h : vf_after_parent l) :
    vf_after_parentB l = true := by
  unfold vf_after_parentB
  refine vf_after_parent_go_of_prop l [] ?_
  intro pre v suf heq hvf
  rcases h pre v suf heq hvf with ⟨u, hu, hub⟩
  exact ⟨u, by rw [List.nil_append]; exact hu, hub⟩

end AssemblerLemmas

/-! Lemmas about the width computations of the table renderer. -/

section WidthLemmas

theorem cwLookup_cons (e : String × Nat) (cw : List (String × Nat)) (k : String) :
    cwLookup (e :: cw) k = if e.1 == k then some e.2 else cwLookup cw k := by
  unfold cwLookup
  by_cases hb : (e.1 == k) = true
  · rw [List.find?_cons_of_pos cw hb, if_pos hb]
    rfl
  · rw [List.find?_cons_of_neg cw (by simpa using hb), if_neg hb]

theorem cwLookup_map_update_eq (cw : List (String × Nat)) (k : String) (w : Nat)
    (hany : (cw.any fun e => e.1 == k) = true) :
    cwLookup (cw.map (fun e => if e.1 == k then (e.1, w) else e)) k = some w := by
  induction cw with
  | nil => simp at hany
  | cons e cw ih =>
    rw [List.map_cons]
    by_cases he : (e.1 == k) = true
    · rw [if_pos he, cwLookup_cons, if_pos he]
    · rw [if_neg he, cwLookup_cons, if_neg he]
      apply ih
      rcases List.any_eq_true.mp hany with ⟨x, hx, hxk⟩
      rcases List.mem_cons.mp hx with h' | h'
      · rw [h'] at hxk
        exact absurd hxk he
      · exact List.any_eq_true.mpr ⟨x, h', hxk⟩

theorem cwLookup_map_update_ne (cw : List (String × Nat)) (k' k : String) (w : Nat)
    (h : k' ≠ k) :
    cwLookup (cw.map (fun e => if e.1 == k' then (e.1, w) else e)) k
      = cwLookup cw k := by
  induction cw with
  | nil => rfl
  | cons e cw ih =>
    rw [List.map_cons]
    by_cases he' : (e.1 == k') = true
    · rw [if_pos he', cwLookup_cons, cwLookup_cons]
      by_cases hek : (e.1 == k) = true
      · exact absurd (by
          rw [← beq_iff_eq.mp he']
          exact beq_iff_eq.mp hek) h
      · rw [if_neg hek, if_neg hek]
        exact ih
    · rw [if_neg he', cwLookup_cons, cwLookup_cons]
      by_cases hek : (e.1 == k) = true
      · rw [if_pos hek, if_pos hek]
      · rw [if_neg hek, if_neg hek]
        exact ih

theorem cwLookup_append_single_eq (cw : List (String × Nat)) (k : String) (w : Nat)
    (hany : ¬ (cw.any fun e => e.1 == k) = true) :
    cwLookup (cw ++ [(k, w)]) k = some w := by
  have hnone : List.find? (fun e => e.1 == k) cw = none := by
    rw [List.find?_eq_none]
    intro x hx hb
    exact hany (List.any_eq_true.mpr ⟨x, hx, hb⟩)
  unfold cwLookup
  rw [List.find?_append, hnone]
  simp

theorem cwLookup_append_single_ne (cw : List (String × Nat)) (k' k : String) (w : Nat)
    (h : k' ≠ k) : cwLookup (cw ++ [(k', w)]) k = cwLookup cw k := by
  unfold cwLookup
  rw [List.find?_append]
  have hone : List.find? (fun e => e.1 == k) [(k', w)] = none := by
    rw [List.find?_eq_none]
    intro x hx hb
    rw [List.mem_singleton.mp hx] at hb
    exact h (beq_iff_eq.mp hb)
  rw [hone]
  cases hf : List.find? (fun e => e.1 == k) cw <;> simp

theorem cwLookup_set_eq (cw : List (String × Nat)) (k : String) (w : Nat) :
    cwLookup (cwSet cw k w) k = some w := by
  unfold cwSet
  by_cases hany : (cw.any fun e => e.1 == k) = true
  · rw [if_pos hany]
    exact cwLookup_map_update_eq cw k w hany
  · rw [if_neg hany]
    exact cwLookup_append_single_eq cw k w hany

theorem cwLookup_set_ne (cw : List (String × Nat)) (k' k : String) (w : Nat)
    (h : k' ≠ k) : cwLookup (cwSet cw k' w) k = cwLookup cw k := by
  unfold cwSet
  by_cases hany : (cw.any fun e => e.1 == k') = true
  · rw [if_pos hany]
    exact cwLookup_map_update_ne cw k' k w h
  · rw [if_neg hany]
    exact cwLookup_append_single_ne cw k' k w h

theorem column_width_step_not_in (order : List String) (cw : List (String × Nat))
    (kv : String × String) (h : ¬ order.contains kv.1 = true) :
    column_width_step order cw kv = cw := by
  unfold column_width_step
  rw [if_neg h]

theorem column_width_step_new (order : List String) (cw : List (String × Nat))
    (kv : String × String) (hc : order.contains kv.1 = true)
    (hl : cwLookup cw kv.1 = none) :
    column_width_step order cw kv
      = cwSet cw kv.1 (if kv.2.length > kv.1.length then kv.2.length else kv.1.length) := by
  unfold column_width_step
  rw [if_pos hc]
  show (match cwLookup cw kv.1 with
        | none =>
          cwSet cw kv.1 (if kv.2.length > kv.1.length then kv.2.length else kv.1.length)
        | some w =>
          if kv.2.length > w then
            cwSet cw kv.1 (if kv.2.length > kv.1.length then kv.2.length else kv.1.length)
          else cw) = _
  rw [hl]

theorem column_width_step_old (order : List String) (cw : List (String × Nat))
    (kv : String × String) (w : Nat) (hc : order.contains kv.1 = true)
    (hl : cwLookup cw kv.1 = some w) :
    column_width_step order cw kv
      = if kv.2.length > w then
          cwSet cw kv.1 (if kv.2.length > kv.1.length then kv.2.length else kv.1.length)
        else cw := by
  unfold column_width_step
  rw [if_pos hc]
  show (match cwLookup cw kv.1 with
        | none =>
          cwSet cw kv.1 (if kv.2.length > kv.1.length then kv.2.length else kv.1.length)
        | some w =>
          if kv.2.length > w then
            cwSet cw kv.1 (if kv.2.length > kv.1.length then kv.2.length else kv.1.length)
          else cw) = _
  rw [hl]

theorem column_width_step_lookup_ne (order : List String) (cw : List (String × Nat))
    (kv : String × String) (k : String) (h : kv.1 ≠ k) :
    cwLookup (column_width_step order cw kv) k = cwLookup cw k := by
  by_cases hc : order.contains kv.1 = true
  · cases hl : cwLookup cw kv.1 with
    | none => rw [column_width_step_new order cw kv hc hl, cwLookup_set_ne _ _ _ _ h]
    | some w =>
      rw [column_width_step_old order cw kv w hc hl]
      by_cases hgt : kv.2.length > w
      · rw [if_pos hgt, cwLookup_set_ne _ _ _ _ h]
      · rw [if_neg hgt]
  · rw [column_width_step_not_in order cw kv hc]

theorem column_width_step_lookup_eq (order : List String) (cw : List (String × Nat))
    (kv : String × String) (hc : order.contains kv.1 = true) :
    cwLookup (column_width_step order cw kv) kv.1
      = cw_entry_step kv.1 (cwLookup cw kv.1) kv.2.length := by
  cases hl : cwLookup cw kv.1 with
  | none =>
    rw [column_width_step_new order cw kv hc hl, cwLookup_set_eq]
    simp [cw_entry_step]
  | some w =>
    rw [column_width_step_old order cw kv w hc hl]
    by_cases hgt : kv.2.length > w
    · rw [if_pos hgt, cwLookup_set_eq]
      simp [cw_entry_step, hgt]
    · rw [if_neg hgt, hl]
      simp [cw_entry_step, hgt]

theorem column_width_step_lookup_not_in (order : List String)
    (cw : List (String × Nat)) (kv : String × String) (k : String)
    (h : ¬ order.contains k = true) :
    cwLookup (column_width_step order cw kv) k = cwLookup cw k := by
  by_cases he : kv.1 = k
  · rw [column_width_step_not_in order cw kv (by rw [he]; exact h)]
  · exact column_width_step_lookup_ne order cw kv k he

theorem foldl_cwLookup_const {β : Type _} (step : List (String × Nat) → β → List (String × Nat))
    (k : String) (hstep : ∀ cw x, cwLookup (step cw x) k = cwLookup cw k) :
    ∀ (l : List β) (cw : List (String × Nat)),
      cwLookup (l.foldl step cw) k = cwLookup cw k := by
  intro l
  induction l with
  | nil => intro cw; rfl
  | cons x l ih =>
    intro cw
    rw [List.foldl_cons, ih, hstep]

/-- A key outside the working field order never enters the column width
dictionary. -/
theorem column_widths_not_in (order : List String) (items : List ReportItem)
    (k : String) (h : ¬ order.contains k = true) :
    cwLookup (column_widths order items) k = none := by
  unfold column_widths
  rw [foldl_cwLookup_const _ k ?_ items []]
  · rfl
  · intro cw it
    rw [foldl_cwLookup_const _ k ?_ it.bdf_devices cw]
    intro cw' d
    rw [foldl_cwLookup_const _ k ?_ d cw']
    intro cw'' kv
    exact column_width_step_lookup_not_in order cw'' kv k h

theorem cw_fold_dict (order : List String) (k : String) (hk : order.contains k = true) :
    ∀ (d : Dict) (cw : List (String × Nat)),
      cwLookup (d.foldl (column_width_step order) cw) k
        = (d.filterMap (fun kv => if kv.1 == k then some kv.2.length else none)).foldl
            (cw_entry_step k) (cwLookup cw k) := by
  intro d
  induction d with
  | nil => intro cw; rfl
  | cons kv d ih =>
    intro cw
    rw [List.foldl_cons]
    by_cases hb : (kv.1 == k) = true
    · have hkv : kv.1 = k := beq_iff_eq.mp hb
      subst hkv
      rw [List.filterMap_cons_some (by rw [if_pos hb]), List.foldl_cons, ih]
      congr 1
      exact column_width_step_lookup_eq order cw kv hk
    · rw [List.filterMap_cons_none (by rw [if_neg hb]), ih]
      congr 1
      refine column_width_step_lookup_ne order cw kv k ?_
      intro he
      rw [he] at hb
      exact hb (beq_self_eq_true k)

theorem cw_fold_devlist (order : List String) (k : String) (hk : order.contains k = true) :
    ∀ (ds : List Dict) (cw : List (String × Nat)),
      cwLookup ((ds.foldl (fun cw d => d.foldl (column_width_step order) cw) cw)) k
        = ((ds.map (fun d =>
            d.filterMap (fun kv => if kv.1 == k then some kv.2.length else none))).flatten).foldl
            (cw_entry_step k) (cwLookup cw k) := by
  intro ds
  induction ds with
  | nil => intro cw; rfl
  | cons d ds ih =>
    intro cw
    rw [List.foldl_cons, List.map_cons, List.flatten_cons, List.foldl_append, ih,
      cw_fold_dict order k hk]

theorem value_lengths_cons (k : String) (it : ReportItem) (its : List ReportItem) :
    value_lengths k (it :: its)
      = ((it.bdf_devices.map (fun d =>
          d.filterMap (fun kv =>
            if kv.1 == k then some kv.2.length else none))).flatten)
        ++ value_lengths k its := by
  unfold value_lengths
  rw [List.map_cons, List.flatten_cons]

/-- The column width entry of a tracked field is the fold of
`cw_entry_step` over the value lengths scanned for that field. -/
theorem cw_fold_items (order : List String) (k : String) (hk : order.contains k = true)
    (items : List ReportItem) :
    cwLookup (column_widths order items) k
      = (value_lengths k items).foldl (cw_entry_step k) none := by
  have h : ∀ (its : List ReportItem) (cw : List (String × Nat)),
      cwLookup (its.foldl (fun cw it =>
        it.bdf_devices.foldl (fun cw d => d.foldl (column_width_step order) cw) cw) cw) k
        = (value_lengths k its).foldl (cw_entry_step k) (cwLookup cw k) := by
    intro its
    induction its with
    | nil => intro cw; rfl
    | cons it its ih =>
      intro cw
      rw [List.foldl_cons, ih, cw_fold_devlist order k hk, value_lengths_cons,
        List.foldl_append]
  unfold column_widths
  exact h items []

theorem cw_entry_fold_some (k : String) :
    ∀ (vals : List Nat) (w : Nat), k.length ≤ w →
      vals.foldl (cw_entry_step k) (some w) = some (vals.foldl Nat.max w) := by
  intro vals
  induction vals with
  | nil => intro w _; rfl
  | cons v vals ih =>
    intro w hw
    rw [List.foldl_cons, List.foldl_cons]
    by_cases hv : v > w
    · have hstep : cw_entry_step k (some w) v = some v := by
        simp only [cw_entry_step]
        rw [if_pos hv, if_pos (Nat.lt_of_le_of_lt hw hv)]
      have hmax : Nat.max w v = v := Nat.max_eq_right (Nat.le_of_lt hv)
      rw [hstep, hmax]
      exact ih v (Nat.le_trans hw (Nat.le_of_lt hv))
    · have hstep : cw_entry_step k (some w) v = some w := by
        simp only [cw_entry_step]
        rw [if_neg hv]
      have hmax : Nat.max w v = w := Nat.max_eq_left (Nat.le_of_not_lt hv)
      rw [hstep, hmax]
      exact ih w hw

theorem cw_entry_fold_none (k : String) (vals : List Nat) :
    vals.foldl (cw_entry_step k) none
      = (if vals.isEmpty then none else some (vals.foldl Nat.max k.length)) := by
  cases vals with
  | nil => rfl
  | cons v vals =>
    rw [List.foldl_cons, List.foldl_cons]
    have hstep : cw_entry_step k none v = some (Nat.max k.length v) := by
      simp only [cw_entry_step]
      by_cases hv : v > k.length
      · have hmax : Nat.max k.length v = v := Nat.max_eq_right (Nat.le_of_lt hv)
        rw [if_pos hv, hmax]
      · have hmax : Nat.max k.length v = k.length := Nat.max_eq_left (Nat.le_of_not_lt hv)
        rw [if_neg hv, hmax]
    rw [hstep, cw_entry_fold_some k vals (Nat.max k.length v) (Nat.le_max_left _ _)]
    rfl

theorem max_if (w c : Nat) : (if w < c then c else w) = Nat.max w c := by
  by_cases h : w < c
  · have hmax : Nat.max w c = c := Nat.max_eq_right (Nat.le_of_lt h)
    rw [if_pos h, hmax]
  · have hmax : Nat.max w c = w := Nat.max_eq_left (Nat.le_of_not_lt h)
    rw [if_neg h, hmax]

theorem info_widths_cons (it : ReportItem) (its : List ReportItem) :
    info_widths (it :: its)
      = (it.hca_info.map (fun kv => kv.1.length + kv.2.length + 5)) ++ info_widths its := by
  unfold info_widths
  rw [List.map_cons, List.flatten_cons]

/-- The adapter summary width is the maximum of the individual
`key: value` cell widths (and `0` when there are none): the loop of
lines 404-407 keeps a running maximum of per-field widths, it does not
sum them. -/
theorem hca_info_line_width_eq (items : List ReportItem) :
    hca_info_line_width items = (info_widths items).foldl Nat.max 0 := by
  have h : ∀ (its : List ReportItem) (w : Nat),
      its.foldl (fun w it =>
        it.hca_info.foldl (fun w kv =>
          if w < kv.1.length + kv.2.length + 5 then kv.1.length + kv.2.length + 5 else w) w) w
      = (info_widths its).foldl Nat.max w := by
    intro its
    induction its with
    | nil => intro w; rfl
    | cons it its ih =>
      intro w
      rw [List.foldl_cons, ih, info_widths_cons, List.foldl_append]
      congr 1
      rw [List.foldl_map]
      simp only [max_if]
  unfold hca_info_line_width
  exact h items 0

theorem if_gt_eq_max (a b : Int) : (if a > b then a else b) = max a b := by
  by_cases h : a > b
  · rw [if_pos h, max_eq_left (le_of_lt h)]
  · rw [if_neg h, max_eq_right (le_of_not_lt h)]

/-- The separator width is the larger of the device table width and the
adapter summary width. -/
theorem separator_len_eq (order : List String) (items : List ReportItem) :
    separator_len order items
      = max (bdf_device_line_width order items) ((hca_info_line_width items : Int)) := by
  unfold separator_len
  exact if_gt_eq_max _ _

end WidthLemmas

/-! Statements of the verified claims. -/

section Claims

/-- Claim C1, counterexample to the claim as stated: `vfOrphan` is a VF
whose declared parent bus address matches no device record at all (in
particular no PF record), yet assembly completes without raising and
returns an adapter list, silently skipping the VF — the run is not
aborted. -/
theorem claim_C1_counterexample :
    vfOrphan.sriov = "VF"
      ∧ ([vfOrphan].all (fun d => !(isPF d && (d.bdf == vfOrphan.vfParent)))) = true
      ∧ assemble [vfOrphan] = Except.ok [] :=
  ⟨rfl, by decide, rfl⟩

/-- Claim C1, amended: topology assembly aborts the run exactly when some
VF device record has a parent address that is carried by some device
record (the first such record being `parent`) whose serial number belongs
to no adapter record built in pass 1; a VF whose parent address matches
no device record at all is silently skipped and never causes an error. -/
theorem claim_C1_amended (devs : List BfdDev) :
    (∃ e, assemble devs = .error e) ↔
      ∃ dev, dev ∈ devs ∧ dev.sriov = "VF" ∧ ∃ parent,
        devs.find? (fun p => dev.vfParent == p.bdf) = some parent ∧
        parent.sn ∉ (pass1 devs).map MlnxHCA.sn := by
  unfold assemble
  exact pass2_error_iff devs devs (pass1 devs)

/-- Claim C2, counterexample to the claim as stated: with one PF and two
VFs of that PF, the second VF is inserted between the PF and the first
VF, so the first VF (`vfA1`) does not sit at the position immediately
after its parent PF (`pfA`, the unique record with that bus address, at
position 0): position 1 holds `vfA2` instead, and `vfA1` sits at
position 2. -/
theorem claim_C2_counterexample :
    assemble [pfA, vfA1, vfA2] = Except.ok [hcaA]
      ∧ hcaA.bfd_devices = [pfA, vfA2, vfA1]
      ∧ vfA1.sriov = "VF"
      ∧ vfA1.vfParent = pfA.bdf
      ∧ ([vfA2, vfA1].all (fun d => !(d.bdf == pfA.bdf))) = true
      ∧ hcaA.bfd_devices[0]? = some pfA
      ∧ hcaA.bfd_devices[1]? = some vfA2
      ∧ vfA2 ≠ vfA1
      ∧ hcaA.bfd_devices[2]? = some vfA1 :=
  ⟨rfl, rfl, rfl, rfl, by decide, rfl, rfl, by decide, rfl⟩

/-- Claim C2, amended: in every assembled topology, every VF device
record is preceded, within the device sequence of the same adapter
record, by a record carrying its parent bus address — so a VF appears
strictly after the first occurrence of its parent PF, never before it and
never in a different adapter record (at insertion time the VF is placed
directly behind each occurrence of the parent address; a VF added later
pushes an earlier VF of the same parent further right).  The hypothesis
reflects the sysfs layer: a record with `sriov = "VF"` never carries the
PF parent marker `"-"`. -/
theorem claim_C2_amended (devs : List BfdDev) (hcas : List MlnxHCA)
    (hvp : ∀ d ∈ devs, d.sriov = "VF" → d.vfParent ≠ "-")
    (h : assemble devs = .ok hcas) :
    ∀ hca ∈ hcas, vf_after_parentB hca.bfd_devices = true := by
  intro hca hmem
  exact vf_after_parentB_of_prop hca.bfd_devices
    (assemble_placed devs hcas hvp h hca hmem)

/-- Claim C2, witness for the amended claim at the concrete topology of
the counterexample. -/
theorem claim_C2_witness : vf_after_parentB hcaA.bfd_devices = true :=
  claim_C2_amended [pfA, vfA1, vfA2] [hcaA] (by decide) rfl hcaA (by decide)

/-- Claim C3: (scenario) two PFs sharing serial number `SN123`, one
dual-port card contributing two device records (`pB1`, `pB2`, same bus
address) and one single-port card contributing one (`pB3`), produce
exactly one adapter record holding the three device records in discovery
order, with display index `#1`; (general) pass 1 assigns the display
indices 1, 2, 3, … positionally in discovery order, and pass 2 never
changes an index, so the indices of a completed assembly are exactly
those assigned in pass 1. -/
theorem claim_C3 :
    (pass1 [pB1, pB2, pB3] = [hcaB]
      ∧ hcaB.bfd_devices = [pB1, pB2, pB3]
      ∧ hcaB.hca_index = "#1"
      ∧ assemble [pB1, pB2, pB3] = .ok [hcaB])
    ∧ (∀ devs : List BfdDev,
        (pass1 devs).map MlnxHCA.hca_index_val
          = (List.range (pass1 devs).length).map (fun k => some (k + 1)))
    ∧ (∀ (devs : List BfdDev) (hcas : List MlnxHCA), assemble devs = .ok hcas →
        hcas.map MlnxHCA.hca_index_val = (pass1 devs).map MlnxHCA.hca_index_val) :=
  ⟨⟨by decide, rfl, by decide, rfl⟩, pass1_index, assemble_index⟩

/-- Claim C3, witness for the display index stability through pass 2 at
the concrete scenario topology. -/
theorem claim_C3_witness :
    [hcaB].map MlnxHCA.hca_index_val = (pass1 [pB1, pB2, pB3]).map MlnxHCA.hca_index_val :=
  claim_C3.2.2 [pB1, pB2, pB3] [hcaB] rfl

/-- Claim C4, counterexample to the claim as stated: the predicate
`State=actv` meets a device record whose `State` value `actv999` fails
full-match semantics, yet the record survives, because the source matches
with `re.match`, which anchors at the start only and accepts any value of
which the pattern matches a leading part. -/
theorem claim_C4_counterexample :
    dmem [("State", "actv999")] "State" = true
      ∧ re_fullmatch_spec "actv" "actv999" = false
      ∧ re_match "actv" "actv999" = true
      ∧ apply_where_output_filters re_match [("State", "actv")] [itemActvSuffix]
          = [itemActvSuffix] :=
  ⟨rfl, by decide, by decide, by decide⟩

/-- Claim C4, amended: for a single `field=regex` predicate, a device
record is dropped exactly when the field is present in it and its value
fails `re.match` (anchored at the start of the value, not full match);
after those drops an adapter item is dropped exactly when it has no
remaining device records or its adapter summary carries the field with a
failing value; a record lacking the field is never dropped.  The
statement holds for every matching function `rmatch`, in particular for
the embedding `re_match` of `re.match` on literal patterns. -/
theorem claim_C4_amended (rmatch : String → String → Bool) (k p : String)
    (items : List ReportItem) :
    apply_where_output_filters rmatch [(k, p)] items
      = items.filterMap (fun hca =>
          if (hca.bdf_devices.filter
                (fun d => !(dmem d k) || rmatch p (dget d k))).isEmpty
              || (dmem hca.hca_info k && !(rmatch p (dget hca.hca_info k))) then
            none
          else
            some { hca_info := hca.hca_info
                   bdf_devices := hca.bdf_devices.filter
                     (fun d => !(dmem d k) || rmatch p (dget d k)) }) := by
  show where_step rmatch items (k, p) = _
  rw [where_step_eq]
  apply congrArg (fun f => List.filterMap f items)
  funext hca
  simp only [fails_filter, Bool.not_and, Bool.not_not]

/-- Claim C5, counterexample to the claim as stated: the key removal list
is computed from the first report item only, so the field `Extra` of the
second item — outside the positive selection `[Dev]` and absent from the
first item — survives the selection filter in the adapter mapping of the
second item. -/
theorem claim_C5_counterexample :
    cfgPosDev.output_fields_filter_positive = ["Dev"]
      ∧ apply_select_output_filters cfgPosDev itemsSelect
          = .ok (cfgPosDev, ["Dev"],
              [{ hca_info := [("Dev", "#1")], bdf_devices := [[("Dev", "#1")]] },
               { hca_info := [("Dev", "#2"), ("Extra", "e")],
                 bdf_devices := [[("Dev", "#2")]] }])
      ∧ (["Dev"].contains "Extra") = false
      ∧ dmem [("Dev", "#2"), ("Extra", "e")] "Extra" = true :=
  ⟨rfl, rfl, by decide, by decide⟩

/-- Claim C5, amended: on report item lists all of whose mapping keys
occur among the keys of the first item (as holds for assembler-produced
items), field selection behaves as claimed: a non-empty positive list
takes precedence and becomes the working order, a non-empty negative list
subtracts its fields from the configured order (preserving the configured
order of the survivors), and every mapping of every item is filtered to
exactly the fields of the resulting order. -/
theorem claim_C5_amended (config : Config) (it0 : ReportItem) (rest : List ReportItem)
    (d0 : Dict) (ds : List Dict)
    (hdev : it0.bdf_devices = d0 :: ds)
    (hom : ∀ it ∈ it0 :: rest,
      (∀ kv ∈ it.hca_info,
        kv.1 ∈ it0.hca_info.map (fun kv => kv.1) ++ d0.map (fun kv => kv.1)) ∧
      (∀ d ∈ it.bdf_devices, ∀ kv ∈ d,
        kv.1 ∈ it0.hca_info.map (fun kv => kv.1) ++ d0.map (fun kv => kv.1))) :
    (config.output_fields_filter_positive ≠ [] →
      apply_select_output_filters config (it0 :: rest)
        = .ok (config, config.output_fields_filter_positive,
            (it0 :: rest).map (fun it =>
              { hca_info := it.hca_info.filter
                  (fun kv => config.output_fields_filter_positive.contains kv.1)
                bdf_devices := it.bdf_devices.map (fun d =>
                  d.filter (fun kv =>
                    config.output_fields_filter_positive.contains kv.1)) })))
    ∧ (config.output_fields_filter_positive = [] →
       config.output_fields_filter_negative ≠ [] →
      apply_select_output_filters config (it0 :: rest)
        = .ok ({ config with output_order :=
              config.output_fields_filter_negative.foldl List.erase config.output_order },
            config.output_fields_filter_negative.foldl List.erase config.output_order,
            (it0 :: rest).map (fun it =>
              { hca_info := it.hca_info.filter (fun kv =>
                  (config.output_fields_filter_negative.foldl List.erase
                    config.output_order).contains kv.1)
                bdf_devices := it.bdf_devices.map (fun d =>
                  d.filter (fun kv =>
                    (config.output_fields_filter_negative.foldl List.erase
                      config.output_order).contains kv.1)) }))) := by
  constructor
  · intro hpos
    have hb := select_branch_pos config hpos
    have hb1 : (select_branch config).1 = config := by rw [hb]
    have hb2 : (select_branch config).2 = config.output_fields_filter_positive := by
      rw [hb]
    rw [apply_select_cons config it0 rest d0 ds hdev, hb1, hb2,
      select_apply_eq_filter config.output_fields_filter_positive it0 rest d0 hom]
  · intro hp hn
    have hb := select_branch_neg config hp hn
    have hb1 : (select_branch config).1
        = { config with output_order :=
            config.output_fields_filter_negative.foldl List.erase config.output_order } := by
      rw [hb]
    have hb2 : (select_branch config).2
        = config.output_fields_filter_negative.foldl List.erase config.output_order := by
      rw [hb]
    rw [apply_select_cons config it0 rest d0 ds hdev, hb1, hb2,
      select_apply_eq_filter
        (config.output_fields_filter_negative.foldl List.erase config.output_order)
        it0 rest d0 hom]

/-- Claim C5, witness for the amended claim: positive selection `[Dev]`
on a homogeneous single-item report. -/
theorem claim_C5_witness :
    apply_select_output_filters cfgPosDev [itemDevPn]
      = .ok (cfgPosDev, ["Dev"],
          [{ hca_info := [("Dev", "#1")], bdf_devices := [[("Dev", "#1")]] }]) :=
  (claim_C5_amended cfgPosDev itemDevPn [] [("Dev", "#1")] [] rfl (by decide)).1
    (by decide)

/-- Claim C6, counterexample to the claim as stated: the predicate list
is turned into a dictionary keyed by field name (`dict(...)`, last regex
wins), so adding a second predicate on an already used field name
replaces the earlier, stricter predicate: with `State=down` alone the
only adapter is dropped, while `State=down` plus `State=actv` keeps it —
the added predicate increased both surviving counts. -/
theorem claim_C6_counterexample :
    apply_where_output_filters re_match [("State", "down")] [itemActv] = []
      ∧ apply_where_output_filters re_match
          [("State", "down"), ("State", "actv")] [itemActv] = [itemActv]
      ∧ (apply_where_output_filters re_match [("State", "down")] [itemActv]).length
          < (apply_where_output_filters re_match
              [("State", "down"), ("State", "actv")] [itemActv]).length
      ∧ totalDevs (apply_where_output_filters re_match [("State", "down")] [itemActv])
          < totalDevs (apply_where_output_filters re_match
              [("State", "down"), ("State", "actv")] [itemActv]) :=
  ⟨by decide, by decide, by decide, by decide⟩

/-- Claim C6, amended: adding one `field=regex` predicate whose field
name does not occur among the existing predicates never increases the
number of surviving adapter items nor the number of surviving device
records (when the field name repeats, the later regex replaces the
earlier one in the constraint dictionary and the counts may grow, as the
counterexample shows). -/
theorem claim_C6_amended (rmatch : String → String → Bool)
    (raw : List (String × String)) (k p : String) (items : List ReportItem)
    (hfresh : ∀ e ∈ raw, e.1 ≠ k) :
    (apply_where_output_filters rmatch (raw ++ [(k, p)]) items).length
        ≤ (apply_where_output_filters rmatch raw items).length
      ∧ totalDevs (apply_where_output_filters rmatch (raw ++ [(k, p)]) items)
        ≤ totalDevs (apply_where_output_filters rmatch raw items) := by
  unfold apply_where_output_filters
  rw [dict_of_pairs_append_fresh raw (k, p) hfresh, List.foldl_append]
  exact ⟨where_step_length_le rmatch _ (k, p), where_step_totalDevs_le rmatch _ (k, p)⟩

/-- Claim C6, witness for the amended claim: adding a predicate on the
unused field `Net` does not increase the counts. -/
theorem claim_C6_witness :
    (apply_where_output_filters re_match
        ([("State", "down")] ++ [("Net", "eth")]) [itemActv]).length
      ≤ (apply_where_output_filters re_match [("State", "down")] [itemActv]).length
    ∧ totalDevs (apply_where_output_filters re_match
        ([("State", "down")] ++ [("Net", "eth")]) [itemActv])
      ≤ totalDevs (apply_where_output_filters re_match [("State", "down")] [itemActv]) :=
  claim_C6_amended re_match [("State", "down")] "Net" "eth" [itemActv] (by decide)

/-- Claim C7, counterexample to the claim as stated: on a concrete report
item the adapter summary width computed by the source (a maximum of
per-field `len(key) + len(value) + 5` cell widths, each summary field
being rendered on its own line) differs from the sum-based formula of the
claim, and the separator width computed by the source
(`sum + 3*n - 2`) differs from the claimed `sum + 3*(n-1) - 2` based
formula. -/
theorem claim_C7_counterexample :
    hca_info_line_width [itemWidths] = 7
      ∧ spec_adapter_summary_width [itemWidths] = 13
      ∧ separator_len ["C", "D"] [itemWidths] = 9
      ∧ spec_separator_len ["C", "D"] [itemWidths] = 13
      ∧ hca_info_line_width [itemWidths] ≠ spec_adapter_summary_width [itemWidths]
      ∧ separator_len ["C", "D"] [itemWidths] ≠ spec_separator_len ["C", "D"] [itemWidths] :=
  ⟨by decide, by decide, by decide, by decide, by decide, by decide⟩

/-- Claim C7, amended: (columns) the column width of a field of the
working order equals the maximum of the header length and all its scanned
value lengths, and the field has no column when no device record carries
it; (adapter summary) the summary line width is the maximum over all
summary fields of all adapters of `len(key) + len(value) + 5`, not a sum;
(separator) the separator width is the larger of the device table width
`sum of column widths + 3 * number of columns - 2` and the adapter
summary width. -/
theorem claim_C7_amended :
    (∀ (order : List String) (items : List ReportItem) (k : String),
      order.contains k = true →
      cwLookup (column_widths order items) k
        = (if (value_lengths k items).isEmpty then none
           else some ((value_lengths k items).foldl Nat.max k.length)))
    ∧ (∀ items : List ReportItem,
        hca_info_line_width items = (info_widths items).foldl Nat.max 0)
    ∧ (∀ (order : List String) (items : List ReportItem),
        separator_len order items
          = max (((column_widths order items).map (fun e => (e.2 : Int))).sum
                  + 3 * (((column_widths order items).length : Int)) - 2)
                ((hca_info_line_width items : Int))) := by
  refine ⟨?_, hca_info_line_width_eq, ?_⟩
  · intro order items k hk
    rw [cw_fold_items order k hk items, cw_entry_fold_none]
  · intro order items
    exact separator_len_eq order items

/-- Claim C7, witness for the column width formula at a concrete report
item. -/
theorem claim_C7_witness :
    cwLookup (column_widths ["C", "D"] [itemWidths]) "C"
      = (if (value_lengths "C" [itemWidths]).isEmpty then none
         else some ((value_lengths "C" [itemWidths]).foldl Nat.max "C".length)) :=
  claim_C7_amended.1 ["C", "D"] [itemWidths] "C" (by decide)

/-- Claim C8: field selection with a non-empty positive list is
idempotent — running the selection filter again on its own output, with
the configuration it returned, reproduces exactly the same configuration,
working order and report items (in particular the second run computes an
empty key removal list). -/
theorem claim_C8 (config : Config) (items : List ReportItem)
    (r : Config × List String × List ReportItem)
    (hpos : config.output_fields_filter_positive ≠ [])
    (h : apply_select_output_filters config items = .ok r) :
    apply_select_output_filters r.1 r.2.2 = .ok r := by
  have hb := select_branch_pos config hpos
  have hb1 : (select_branch config).1 = config := by rw [hb]
  have hb2 : (select_branch config).2 = config.output_fields_filter_positive := by
    rw [hb]
  cases items with
  | nil =>
    rw [apply_select_nil, hb1, hb2] at h
    have hr : (config, config.output_fields_filter_positive, ([] : List ReportItem)) = r :=
      Except.ok.inj h
    rw [← hr]
    rw [apply_select_nil, hb1, hb2]
  | cons it0 rest =>
    cases hdev : it0.bdf_devices with
    | nil =>
      rw [apply_select_cons_err config it0 rest hdev] at h
      cases h
    | cons d0 ds =>
      rw [apply_select_cons config it0 rest d0 ds hdev, hb1, hb2] at h
      have hr : (config, config.output_fields_filter_positive,
          select_apply
            (select_remove_list config.output_fields_filter_positive it0 d0)
            (it0 :: rest)) = r := Except.ok.inj h
      rw [← hr]
      have hfirst : select_apply
          (select_remove_list config.output_fields_filter_positive it0 d0)
          (it0 :: rest)
          = { hca_info := remove_keys it0.hca_info
                (select_remove_list config.output_fields_filter_positive it0 d0)
              bdf_devices := it0.bdf_devices.map (fun d => remove_keys d
                (select_remove_list config.output_fields_filter_positive it0 d0)) }
            :: select_apply
                (select_remove_list config.output_fields_filter_positive it0 d0)
                rest := rfl
      have hdev' : ({ hca_info :=
                        remove_keys it0.hca_info
                          (select_remove_list config.output_fields_filter_positive it0 d0)
                      bdf_devices :=
                        it0.bdf_devices.map (fun d => remove_keys d
                          (select_remove_list config.output_fields_filter_positive it0 d0)) }
            : ReportItem).bdf_devices
          = remove_keys d0
              (select_remove_list config.output_fields_filter_positive it0 d0)
            :: ds.map (fun d => remove_keys d
              (select_remove_list config.output_fields_filter_positive it0 d0)) := by
        show it0.bdf_devices.map _ = _
        rw [hdev, List.map_cons]
      rw [hfirst, apply_select_cons config _ _ _ _ hdev', hb1, hb2]
      have hkeys : ∀ k ∈ ({ hca_info :=
                              remove_keys it0.hca_info
                                (select_remove_list
                                  config.output_fields_filter_positive it0 d0)
                            bdf_devices :=
                              it0.bdf_devices.map (fun d => remove_keys d
                                (select_remove_list
                                  config.output_fields_filter_positive it0 d0)) }
            : ReportItem).hca_info.map (fun kv => kv.1)
            ++ (remove_keys d0
              (select_remove_list config.output_fields_filter_positive it0 d0)).map
              (fun kv => kv.1),
          config.output_fields_filter_positive.contains k = true := by
        intro k hk
        rcases List.mem_append.mp hk with h' | h'
        · refine keys_remove_keys_select config.output_fields_filter_positive it0 d0
            it0.hca_info ?_ k h'
          intro kv hkv
          exact List.mem_append.mpr (Or.inl (List.mem_map_of_mem (fun kv => kv.1) hkv))
        · refine keys_remove_keys_select config.output_fields_filter_positive it0 d0
            d0 ?_ k h'
          intro kv hkv
          exact List.mem_append.mpr (Or.inr (List.mem_map_of_mem (fun kv => kv.1) hkv))
      rw [select_remove_list_eq_nil config.output_fields_filter_positive _ _ hkeys,
        select_apply_nil_removes]

/-- Claim C8, witness: the selection filter applied twice at a concrete
positive selection. -/
theorem claim_C8_witness :
    apply_select_output_filters cfgPosDev
        [{ hca_info := [("Dev", "#1")], bdf_devices := [[("Dev", "#1")]] }]
      = .ok (cfgPosDev, ["Dev"],
          [{ hca_info := [("Dev", "#1")], bdf_devices := [[("Dev", "#1")]] }]) :=
  claim_C8 cfgPosDev [itemDevPn]
    (cfgPosDev, ["Dev"],
      [{ hca_info := [("Dev", "#1")], bdf_devices := [[("Dev", "#1")]] }])
    (by decide) rfl

/-- Claim C9: an adapter record is constructible only from a PF device
record — the constructor raises (returns `none`) on anything else — and
for every completed assembly over pairwise distinct device records, every
adapter record holds a non-empty device list whose head is its founding
PF: a physical function carrying the serial number of the record and
occurring exactly once in the list. -/
theorem claim_C9 :
    (∀ dev : BfdDev, isPF dev = false → MlnxHCA.init dev = none)
    ∧ (∀ (devs : List BfdDev) (hcas : List MlnxHCA), devs.Nodup →
        assemble devs = .ok hcas → ∀ hca ∈ hcas,
          hca.bfd_devices ≠ []
          ∧ ∀ f, hca.bfd_devices.head? = some f →
              isPF f = true ∧ f.sn = hca.sn ∧ hca.bfd_devices.count f = 1) := by
  constructor
  · intro dev h
    unfold MlnxHCA.init
    rw [h]
    rfl
  · intro devs hcas hnd h hca hmem
    rcases assemble_founder devs hcas hnd h hca hmem with ⟨f, t, hd, hpf, hsn, hnin⟩
    constructor
    · rw [hd]
      simp
    · intro f' hf'
      rw [hd] at hf'
      have : f = f' := Option.some.inj hf'
      rw [← this, hd]
      refine ⟨hpf, hsn, ?_⟩
      rw [List.count_cons_self, List.count_eq_zero.mpr hnin]

/-- Claim C9, witness: the assembled topology of `pfA` and its two VFs
has the founding PF at the head, with the serial number of the record,
occurring exactly once. -/
theorem claim_C9_witness :
    isPF pfA = true ∧ pfA.sn = hcaA.sn ∧ hcaA.bfd_devices.count pfA = 1 :=
  (claim_C9.2 [pfA, vfA1, vfA2] [hcaA] (by decide) rfl hcaA (by decide)).2 pfA rfl

/-- Claim C10: the `Output` object's working field order aliases the
configuration's `output_order` list, so a run of the selection filter
with an empty positive list and a non-empty negative list removes the
named fields from the configuration's own `output_order` (first
occurrence each, skipping absent names), leaves every other configuration
field unchanged, and leaves the working order equal to the mutated
configuration list — any later consumer of the configuration in the same
run sees the decremented order. -/
theorem claim_C10 (config : Config) (items : List ReportItem)
    (r : Config × List String × List ReportItem)
    (hp : config.output_fields_filter_positive = [])
    (hn : config.output_fields_filter_negative ≠ [])
    (h : apply_select_output_filters config items = .ok r) :
    r.1.output_order
        = config.output_fields_filter_negative.foldl List.erase config.output_order
      ∧ r.2.1 = r.1.output_order
      ∧ r.1.output_view = config.output_view
      ∧ r.1.show_warnings_and_errors = config.show_warnings_and_errors
      ∧ r.1.output_format = config.output_format
      ∧ r.1.output_separator_char = config.output_separator_char
      ∧ r.1.output_fields_filter_positive = config.output_fields_filter_positive
      ∧ r.1.output_fields_filter_negative = config.output_fields_filter_negative
      ∧ r.1.where_output_filter = config.where_output_filter := by
  have hb := select_branch_neg config hp hn
  have hb1 : (select_branch config).1
      = { config with output_order :=
          config.output_fields_filter_negative.foldl List.erase config.output_order } := by
    rw [hb]
  have hb2 : (select_branch config).2
      = config.output_fields_filter_negative.foldl List.erase config.output_order := by
    rw [hb]
  cases items with
  | nil =>
    rw [apply_select_nil, hb1, hb2] at h
    rw [← Except.ok.inj h]
    exact ⟨rfl, rfl, rfl, rfl, rfl, rfl, rfl, rfl, rfl⟩
  | cons it0 rest =>
    cases hdev : it0.bdf_devices with
    | nil =>
      rw [apply_select_cons_err config it0 rest hdev] at h
      cases h
    | cons d0 ds =>
      rw [apply_select_cons config it0 rest d0 ds hdev, hb1, hb2] at h
      rw [← Except.ok.inj h]
      exact ⟨rfl, rfl, rfl, rfl, rfl, rfl, rfl, rfl, rfl⟩

/-- Claim C10, witness: the negative selection of `PN` and `FW` leaves
behind a configuration whose `output_order` has lost exactly those
fields. -/
theorem claim_C10_witness :
    cfgNegResult.output_order
        = cfgNegPnFw.output_fields_filter_negative.foldl List.erase
            cfgNegPnFw.output_order
      ∧ ["Dev", "SN", "Desc"] = cfgNegResult.output_order
      ∧ cfgNegResult.output_view = cfgNegPnFw.output_view
      ∧ cfgNegResult.show_warnings_and_errors = cfgNegPnFw.show_warnings_and_errors
      ∧ cfgNegResult.output_format = cfgNegPnFw.output_format
      ∧ cfgNegResult.output_separator_char = cfgNegPnFw.output_separator_char
      ∧ cfgNegResult.output_fields_filter_positive
          = cfgNegPnFw.output_fields_filter_positive
      ∧ cfgNegResult.output_fields_filter_negative
          = cfgNegPnFw.output_fields_filter_negative
      ∧ cfgNegResult.where_output_filter = cfgNegPnFw.where_output_filter :=
  claim_C10 cfgNegPnFw [] (cfgNegResult, ["Dev", "SN", "Desc"], []) rfl (by decide) rfl

end Claims

end Lshca
